import Mathlib

/-!
Verification development for the Merovingian contract core: the scanner
(OpenAPI schema resolution), the differ (breaking-change classification),
the snapshot hasher, the consumer registry and the impact orchestrator.

The Python source is embedded shallowly:

* `dict`s are insertion-ordered association lists (`List (key × value)`);
  Python dictionaries cannot hold a key twice, so tables fed to the
  functions below have `Nodup` keys, taken as a hypothesis where a count
  depends on it.
* The source stores schema field tables inside `Endpoint` as JSON strings
  (`json.dumps` on write, `json.loads` in the differ).  `json.loads` is a
  two-sided inverse of `json.dumps` on these string-keyed tables, so the
  embedding stores the tables directly; the serialized text itself is
  produced by `serialize_fields` where the hash needs it.
* Filesystem reads (the YAML/source files) and the SQLite store are the
  boundary: parse results and scan results enter as arguments, the store
  is a record of in-memory tables threaded through each call exactly as
  the source sequences its store calls.
* Generated UUIDs and timestamps are outside the model; no claim touches
  them.
-/

namespace Merovingian

/-- `ChangeKind` of `models/enums.py`. -/
inductive ChangeKind where
  | added
  | removed
  | modified
  | renamed
deriving DecidableEq, Repr

/-- `Severity` of `models/enums.py`. -/
inductive Severity where
  | breaking
  | warning
  | info
deriving DecidableEq, Repr

/-- `ContractType` of `models/enums.py`. -/
inductive ContractType where
  | openapi
  | pydantic
deriving DecidableEq, Repr

/-- One value of a schema field table: the dict
`{"type": …, "required": …, "default": …}` the scanner builds for a field.
Each component is optional because the differ reads the keys with
`dict.get` and a default (`.get("type", "")`, `.get("required", False)`);
`none` models an absent key.  The `default` entry is carried as an optional
string (the scanners store `None` or a scalar there); no classification
rule reads it. -/
structure FieldMeta where
  ftype : Option String := none
  frequired : Option Bool := none
  fdefault : Option String := none
deriving DecidableEq, Repr

/-- A flat schema field table `{name → {type, required, default}}`:
an insertion-ordered Python dict. -/
abbrev FieldTable := List (String × FieldMeta)

/-- Python `d.get(k)` on an association-list dict: the value at the first
(for a genuine dict: only) occurrence of the key. -/
def getKey? {κ α : Type} [DecidableEq κ] (k : κ) : List (κ × α) → Option α
  | [] => none
  | (k', v) :: rest => if k' = k then some v else getKey? k rest

/-- Python `k in d`. -/
def hasKey {κ α : Type} [DecidableEq κ] (k : κ) (l : List (κ × α)) : Bool :=
  (getKey? k l).isSome

/-- Python `d[k] = v` on a dict: replace in place if the key exists,
else append. -/
def upsert {κ α : Type} [DecidableEq κ] (k : κ) (v : α) : List (κ × α) → List (κ × α)
  | [] => [(k, v)]
  | (k', v') :: rest => if k' = k then (k, v) :: rest else (k', v') :: upsert k v rest

/-- `Endpoint` of `models/contracts.py`.  `request_schema`/`response_schema`
hold the field table whose `json.dumps` rendering the source stores
(`none` = Python `None`). -/
structure Endpoint where
  repo_name : String
  method : String
  path : String
  summary : Option String := none
  request_schema : Option FieldTable := none
  response_schema : Option FieldTable := none
deriving DecidableEq, Repr

/-- `ContractChange` of `models/contracts.py` (frozen dataclass; the
registration timestamp-free fields).  The differ always leaves
`affected_consumers` at its default `()`. -/
structure ContractChange where
  repo_name : String
  endpoint_method : String
  endpoint_path : String
  change_kind : ChangeKind
  severity : Severity
  description : String
  affected_consumers : List String := []
deriving DecidableEq, Repr

/-! ## Differ (`core/differ.py`) -/

/-- `_is_type_widening` of `core/differ.py`: the fixed widening allow-list. -/
def is_type_widening (old_type new_type : String) : Bool :=
  (old_type = "integer" && new_type = "number") ||
  (old_type = "int" && new_type = "float") ||
  (old_type = "int" && new_type = "number")

/-- The removed-fields pass of `_diff_schema`: one change per field of the
old table absent from the new one, appended to the breaking list in the
response direction and to the non-breaking list otherwise.  Returned as
(breaking, non_breaking). -/
def diff_schema_removed (old_schema new_schema : FieldTable)
    (direction repo_name method path : String) :
    List ContractChange × List ContractChange :=
  let removed := (old_schema.map Prod.fst).filter (fun f => !(hasKey f new_schema))
  if direction = "response" then
    (removed.map (fun field_name =>
      { repo_name := repo_name, endpoint_method := method, endpoint_path := path,
        change_kind := .removed, severity := .breaking,
        description := s!"Response field '{field_name}' removed from {method} {path}" }), [])
  else
    ([], removed.map (fun field_name =>
      { repo_name := repo_name, endpoint_method := method, endpoint_path := path,
        change_kind := .removed, severity := .info,
        description := s!"Request field '{field_name}' removed from {method} {path}" }))

/-- The per-field classification of the added-fields pass of
`_diff_schema`: a required request field is breaking, all other
additions are non-breaking; returned as the (breaking, non_breaking)
contribution of the field. -/
def classify_added (direction repo_name method path : String) (p : String × FieldMeta) :
    List ContractChange × List ContractChange :=
  let field_name := p.1
  let is_required := p.2.frequired.getD false
  if direction = "request" && is_required then
    ([({ repo_name := repo_name, endpoint_method := method, endpoint_path := path,
         change_kind := .added, severity := .breaking,
         description := s!"Required request field '{field_name}' added to {method} {path}" }
       : ContractChange)], [])
  else if direction = "response" then
    ([], [({ repo_name := repo_name, endpoint_method := method, endpoint_path := path,
             change_kind := .added, severity := .info,
             description := s!"Response field '{field_name}' added to {method} {path}" }
           : ContractChange)])
  else
    ([], [({ repo_name := repo_name, endpoint_method := method, endpoint_path := path,
             change_kind := .added, severity := .info,
             description := s!"Optional request field '{field_name}' added to {method} {path}" }
           : ContractChange)])

/-- The added-fields pass assembled: one classification per field of the
new table absent from the old one. -/
def diff_schema_added (old_schema new_schema : FieldTable)
    (direction repo_name method path : String) :
    List ContractChange × List ContractChange :=
  let added := new_schema.filter (fun p => !(hasKey p.1 old_schema))
  ((added.map (classify_added direction repo_name method path)).map Prod.fst |>.flatten,
   (added.map (classify_added direction repo_name method path)).map Prod.snd |>.flatten)

/-- The type-change comparison of the modified-fields pass of
`_diff_schema` (`_is_type_widening` allow-list → non-breaking warning,
any other change of declared type → breaking). -/
def classify_type_change (field_name old_type new_type direction repo_name method path : String) :
    List ContractChange × List ContractChange :=
  if old_type ≠ new_type then
    if is_type_widening old_type new_type then
      ([], [{ repo_name := repo_name, endpoint_method := method, endpoint_path := path,
              change_kind := .modified, severity := .warning,
              description := s!"Field '{field_name}' type widened from '{old_type}' to '{new_type}' in {direction} of {method} {path}" }])
    else
      ([{ repo_name := repo_name, endpoint_method := method, endpoint_path := path,
          change_kind := .modified, severity := .breaking,
          description := s!"Field '{field_name}' type changed from '{old_type}' to '{new_type}' in {direction} of {method} {path}" }], [])
  else ([], [])

/-- The required-flag comparison of the modified-fields pass of
`_diff_schema`: optional-to-required is breaking on the request side and
informational on the response side; required-to-optional is a warning on
the response side and informational on the request side. -/
def classify_required_change (field_name : String) (old_required new_required : Bool)
    (direction repo_name method path : String) :
    List ContractChange × List ContractChange :=
  if old_required ≠ new_required then
    if !old_required && new_required then
      if direction = "request" then
        ([{ repo_name := repo_name, endpoint_method := method, endpoint_path := path,
            change_kind := .modified, severity := .breaking,
            description := s!"Field '{field_name}' changed from optional to required in {direction} of {method} {path}" }], [])
      else
        ([], [{ repo_name := repo_name, endpoint_method := method, endpoint_path := path,
                change_kind := .modified, severity := .info,
                description := s!"Field '{field_name}' changed from optional to required in {direction} of {method} {path}" }])
    else
      if direction = "response" then
        ([], [{ repo_name := repo_name, endpoint_method := method, endpoint_path := path,
                change_kind := .modified, severity := .warning,
                description := s!"Field '{field_name}' changed from required to optional in {direction} of {method} {path}" }])
      else
        ([], [{ repo_name := repo_name, endpoint_method := method, endpoint_path := path,
                change_kind := .modified, severity := .info,
                description := s!"Field '{field_name}' changed from required to optional in {direction} of {method} {path}" }])
  else ([], [])

/-- The per-field body of the modified-fields pass of `_diff_schema`:
the type-change classification followed by the required-flag
classification, appended in source order. -/
def diff_schema_modified_one (field_name : String) (old_field new_field : FieldMeta)
    (direction repo_name method path : String) :
    List ContractChange × List ContractChange :=
  let typeChanges :=
    classify_type_change field_name (old_field.ftype.getD "") (new_field.ftype.getD "")
      direction repo_name method path
  let requiredChanges :=
    classify_required_change field_name (old_field.frequired.getD false)
      (new_field.frequired.getD false) direction repo_name method path
  (typeChanges.1 ++ requiredChanges.1, typeChanges.2 ++ requiredChanges.2)

/-- The modified-fields pass of `_diff_schema`: iterate the fields present
in both tables in the old table's order (`old_fields & new_fields`),
pairing each old value with the new table's value for the key. -/
def diff_schema_modified (old_schema new_schema : FieldTable)
    (direction repo_name method path : String) :
    List ContractChange × List ContractChange :=
  let both := old_schema.filterMap (fun p =>
    (getKey? p.1 new_schema).map (fun nf => (p.1, p.2, nf)))
  let results := both.map (fun t =>
    diff_schema_modified_one t.1 t.2.1 t.2.2 direction repo_name method path)
  ((results.map Prod.fst).flatten, (results.map Prod.snd).flatten)

/-- `_diff_schema` of `core/differ.py`: direction-aware field-level diff of
two schema field tables, returning `(breaking, non_breaking)`.  The three
passes (removed, added, modified) append to the two output lists in
source order. -/
def diff_schema (old_schema new_schema : FieldTable)
    (direction repo_name method path : String) :
    List ContractChange × List ContractChange :=
  let r := diff_schema_removed old_schema new_schema direction repo_name method path
  let a := diff_schema_added old_schema new_schema direction repo_name method path
  let m := diff_schema_modified old_schema new_schema direction repo_name method path
  (r.1 ++ a.1 ++ m.1, r.2 ++ a.2 ++ m.2)

/-- `_parse_schema` of `core/differ.py`: `None` (and the empty string)
parse to the empty table; through the serialization round-trip a stored
table parses to itself. -/
def parse_schema (schema_json : Option FieldTable) : FieldTable :=
  schema_json.getD []

/-- Truthiness of an optional string (`and new_ep.summary` in the source). -/
def optStringTruthy (s : Option String) : Bool :=
  match s with
  | none => false
  | some s => s ≠ ""

/-- The endpoint-identity map `{(ep.method, ep.path): ep for ep in l}`:
a dict comprehension, i.e. sequential insertion with replacement. -/
def endpointMap (l : List Endpoint) : List ((String × String) × Endpoint) :=
  l.foldl (fun acc ep => upsert (ep.method, ep.path) ep acc) []

/-- The per-common-identity body of `diff_endpoints`: request-direction
schema diff, response-direction schema diff, then the summary
comparison. -/
def diff_endpoints_common (old_ep new_ep : Endpoint) :
    List ContractChange × List ContractChange :=
  let old_req := parse_schema old_ep.request_schema
  let new_req := parse_schema new_ep.request_schema
  let req :=
    if old_req ≠ [] ∨ new_req ≠ [] then
      diff_schema old_req new_req "request" old_ep.repo_name old_ep.method old_ep.path
    else ([], [])
  let old_resp := parse_schema old_ep.response_schema
  let new_resp := parse_schema new_ep.response_schema
  let resp :=
    if old_resp ≠ [] ∨ new_resp ≠ [] then
      diff_schema old_resp new_resp "response" old_ep.repo_name old_ep.method old_ep.path
    else ([], [])
  let summaryChanges : List ContractChange :=
    if old_ep.summary ≠ new_ep.summary ∧ optStringTruthy new_ep.summary then
      [{ repo_name := old_ep.repo_name, endpoint_method := old_ep.method,
         endpoint_path := old_ep.path, change_kind := .modified, severity := .info,
         description := s!"Summary changed for {old_ep.method} {old_ep.path}" }]
    else []
  (req.1 ++ resp.1, req.2 ++ resp.2 ++ summaryChanges)

/-- `diff_endpoints` of `core/differ.py`: compare two endpoint sets and
classify every change, returning `(breaking_changes, non_breaking_changes)`. -/
def diff_endpoints (old new : List Endpoint) :
    List ContractChange × List ContractChange :=
  let old_map := endpointMap old
  let new_map := endpointMap new
  let removed := (old_map.filter (fun p => !(hasKey p.1 new_map))).map (fun p =>
    let ep := p.2
    let method := ep.method
    let path := ep.path
    ({ repo_name := ep.repo_name, endpoint_method := method,
       endpoint_path := path, change_kind := .removed, severity := .breaking,
       description := s!"Endpoint {method} {path} removed" } : ContractChange))
  let added := (new_map.filter (fun p => !(hasKey p.1 old_map))).map (fun p =>
    let ep := p.2
    let method := ep.method
    let path := ep.path
    ({ repo_name := ep.repo_name, endpoint_method := method,
       endpoint_path := path, change_kind := .added, severity := .info,
       description := s!"Endpoint {method} {path} added" } : ContractChange))
  let common := old_map.filterMap (fun p =>
    (getKey? p.1 new_map).map (fun new_ep => diff_endpoints_common p.2 new_ep))
  (removed ++ (common.map Prod.fst).flatten,
   added ++ (common.map Prod.snd).flatten)

/-! ## Snapshot hasher (`compute_spec_hash` of `core/scanner.py`)

`compute_spec_hash` canonicalizes each endpoint as the 4-tuple
`(method, path, request_schema or "", response_schema or "")` over the
*stored JSON strings*, sorts the tuples (Python tuple-of-string order:
componentwise lexicographic), serializes the sorted list with
`json.dumps` and hashes the UTF-8 bytes with SHA-256.  Every stage is
embedded concretely below: `serialize_fields` renders the stored JSON
string of a table, `json_arr`/`json_str` the `json.dumps` rendering of
the canonical list, `sha256_hex` the digest. -/

/-- The lowercase hexadecimal digit of a nibble: `0`–`9` then `a`–`f`. -/
def hexDigit (n : Nat) : Char :=
  if n < 10 then Char.ofNat (48 + n) else Char.ofNat (87 + n)

/-- Four-digit lowercase hex rendering (for `\uXXXX` escapes). -/
def hex4 (n : Nat) : String :=
  String.mk ((List.range 4).map (fun i => hexDigit (n / 16 ^ (3 - i) % 16)))

/-- `json.dumps` escaping of one character (`ensure_ascii=True`, the
default): the two-character escapes, `\uXXXX` for other control or
non-ASCII characters, surrogate pairs beyond the BMP. -/
def json_escape_char (c : Char) : String :=
  let n := c.toNat
  if n = 34 then "\\\""
  else if n = 92 then "\\\\"
  else if n = 8 then "\\b"
  else if n = 9 then "\\t"
  else if n = 10 then "\\n"
  else if n = 12 then "\\f"
  else if n = 13 then "\\r"
  else if n < 32 then "\\u" ++ hex4 n
  else if n < 127 then String.singleton c
  else if n < 65536 then "\\u" ++ hex4 n
  else "\\u" ++ hex4 (55296 + (n - 65536) / 1024) ++ "\\u" ++ hex4 (56320 + (n - 65536) % 1024)

/-- `json.dumps` rendering of a string. -/
def json_str (s : String) : String :=
  "\"" ++ String.join (s.data.map json_escape_char) ++ "\""

/-- `json.dumps` rendering of an array from its rendered items
(default separator: comma and space). -/
def json_arr (items : List String) : String :=
  "[" ++ String.intercalate ", " items ++ "]"

/-- `json.dumps` rendering of one field's metadata dict, keys in the
insertion order the scanners use (`type`, `required`, `default`). -/
def json_of_meta (m : FieldMeta) : String :=
  let entries := List.filterMap id [
    m.ftype.map (fun t => json_str "type" ++ ": " ++ json_str t),
    m.frequired.map (fun b => json_str "required" ++ ": " ++ (if b then "true" else "false")),
    some (json_str "default" ++ ": " ++ (match m.fdefault with
      | none => "null"
      | some d => json_str d))]
  "\x7b" ++ String.intercalate ", " entries ++ "\x7d"

/-- The JSON string the source stores for a field table
(`json.dumps(fields)`). -/
def serialize_fields (t : FieldTable) : String :=
  "\x7b" ++ String.intercalate ", " (t.map (fun p => json_str p.1 ++ ": " ++ json_of_meta p.2)) ++ "\x7d"

/-- `ep.request_schema or ""`: the stored JSON string, or the empty string
for Python `None`. -/
def serializeOptSchema : Option FieldTable → String
  | none => ""
  | some t => serialize_fields t

/-! ### SHA-256 over byte lists (`hashlib.sha256`), on `Nat` mod `2^32`. -/

/-- Truncation to a 32-bit word. -/
def u32 (n : Nat) : Nat := n % 4294967296

/-- Right rotation of a 32-bit word by `n` bits. -/
def rotr32 (n x : Nat) : Nat := u32 (x / 2 ^ n + x % 2 ^ n * 2 ^ (32 - n))

/-- The SHA-256 round constants. -/
def shaK : List Nat := [
  1116352408, 1899447441, 3049323471, 3921009573, 961987163, 1508970993, 2453635748, 2870763221,
  3624381080, 310598401, 607225278, 1426881987, 1925078388, 2162078206, 2614888103, 3248222580,
  3835390401, 4022224774, 264347078, 604807628, 770255983, 1249150122, 1555081692, 1996064986,
  2554220882, 2821834349, 2952996808, 3210313671, 3336571891, 3584528711, 113926993, 338241895,
  666307205, 773529912, 1294757372, 1396182291, 1695183700, 1986661051, 2177026350, 2456956037,
  2730485921, 2820302411, 3259730800, 3345764771, 3516065817, 3600352804, 4094571909, 275423344,
  430227734, 506948616, 659060556, 883997877, 958139571, 1322822218, 1537002063, 1747873779,
  1955562222, 2024104815, 2227730452, 2361852424, 2428436474, 2756734187, 3204031479, 3329325298]

/-- The SHA-256 initial state. -/
def shaH0 : List Nat :=
  [1779033703, 3144134277, 1013904242, 2773480762, 1359893119, 2600822924, 528734635, 1541459225]

/-- Big-endian byte rendering of `n` on `k` bytes. -/
def beBytes : Nat → Nat → List Nat
  | 0, _ => []
  | k + 1, n => beBytes k (n / 256) ++ [n % 256]

/-- SHA-256 message padding: `0x80`, zeros to 56 mod 64, then the bit
length on eight bytes. -/
def shaPad (msg : List Nat) : List Nat :=
  msg ++ [128] ++ List.replicate ((64 - (msg.length + 9) % 64) % 64) 0 ++
    beBytes 8 (8 * msg.length)

/-- Big-endian 32-bit words from a byte list. -/
def bytesToWords : List Nat → List Nat
  | b0 :: b1 :: b2 :: b3 :: rest => (((b0 * 256 + b1) * 256 + b2) * 256 + b3) :: bytesToWords rest
  | _ => []

/-- One extension step of the SHA-256 message schedule. -/
def shaExtendStep (w : List Nat) : List Nat :=
  let i := w.length
  let wm2 := w.getD (i - 2) 0
  let wm7 := w.getD (i - 7) 0
  let wm15 := w.getD (i - 15) 0
  let wm16 := w.getD (i - 16) 0
  let s0 := (rotr32 7 wm15) ^^^ (rotr32 18 wm15) ^^^ (wm15 / 2 ^ 3)
  let s1 := (rotr32 17 wm2) ^^^ (rotr32 19 wm2) ^^^ (wm2 / 2 ^ 10)
  w ++ [u32 (wm16 + s0 + wm7 + s1)]

/-- The 64-word message schedule of one chunk. -/
def shaSchedule (w16 : List Nat) : List Nat :=
  (List.range 48).foldl (fun w _ => shaExtendStep w) w16

/-- One SHA-256 compression round. -/
def shaRound (st : List Nat) (kw : Nat × Nat) : List Nat :=
  match st with
  | [a, b, c, d, e, f, g, h] =>
    let s1 := (rotr32 6 e) ^^^ (rotr32 11 e) ^^^ (rotr32 25 e)
    let ch := (e &&& f) ^^^ ((e ^^^ 4294967295) &&& g)
    let t1 := u32 (h + s1 + ch + kw.1 + kw.2)
    let s0 := (rotr32 2 a) ^^^ (rotr32 13 a) ^^^ (rotr32 22 a)
    let mj := (a &&& b) ^^^ (a &&& c) ^^^ (b &&& c)
    let t2 := u32 (s0 + mj)
    [u32 (t1 + t2), a, b, c, u32 (d + t1), e, f, g]
  | other => other

/-- Process one 64-byte chunk. -/
def shaChunk (h : List Nat) (chunk : List Nat) : List Nat :=
  let ws := shaSchedule (bytesToWords chunk)
  let st := (shaK.zip ws).foldl shaRound h
  (h.zip st).map (fun p => u32 (p.1 + p.2))

/-- Split into 64-byte chunks (fueled by the list length; padding makes
the length a positive multiple of 64). -/
def chunks64Aux : Nat → List Nat → List (List Nat)
  | 0, _ => []
  | _, [] => []
  | fuel + 1, l => l.take 64 :: chunks64Aux fuel (l.drop 64)

/-- The 64-byte chunks of a padded message. -/
def chunks64 (l : List Nat) : List (List Nat) := chunks64Aux l.length l

/-- Eight-digit lowercase hex rendering of a 32-bit word. -/
def toHexWord (n : Nat) : String :=
  String.mk ((List.range 8).map (fun i => hexDigit (n / 16 ^ (7 - i) % 16)))

/-- `hashlib.sha256(data).hexdigest()` over a byte list. -/
def sha256_hex (data : List Nat) : String :=
  let final := (chunks64 (shaPad data)).foldl shaChunk shaH0
  String.join (final.map toHexWord)

/-- The UTF-8 encoding of one character. -/
def utf8Char (c : Char) : List Nat :=
  let n := c.toNat
  if n < 128 then [n]
  else if n < 2048 then [192 + n / 64, 128 + n % 64]
  else if n < 65536 then [224 + n / 4096, 128 + n / 64 % 64, 128 + n % 64]
  else [240 + n / 262144, 128 + n / 4096 % 64, 128 + n / 64 % 64, 128 + n % 64]

/-- The UTF-8 bytes of a string (`str.encode()`). -/
def strBytes (s : String) : List Nat := (s.data.map utf8Char).flatten

/-! ### String and tuple comparison

Python compares strings by Unicode code point and tuples of strings
componentwise; SQLite's default `BINARY` collation compares the UTF-8
bytes, the same total order.  Both are embedded as explicit boolean
comparisons (kernel-computable, unlike the library's instance chain),
with the strict-order laws proved by induction below. -/

/-- Strict code-point-lexicographic comparison of character lists. -/
def charListLtb : List Char → List Char → Bool
  | [], [] => false
  | [], _ :: _ => true
  | _ :: _, [] => false
  | x :: xs, y :: ys =>
    if x.toNat < y.toNat then true
    else if y.toNat < x.toNat then false
    else charListLtb xs ys

/-- Python `a < b` on strings. -/
def strLtb (a b : String) : Bool := charListLtb a.data b.data

/-- Python `a <= b` on strings. -/
def strLeb (a b : String) : Bool := strLtb a b || a == b

/-- Strict lexicographic product of two strict boolean orders. -/
def lexLtb {α β : Type} [BEq α] (ltA : α → α → Bool) (ltB : β → β → Bool)
    (p q : α × β) : Bool :=
  ltA p.1 q.1 || (p.1 == q.1 && ltB p.2 q.2)

/-- The canonical form of one endpoint:
`(ep.method, ep.path, ep.request_schema or "", ep.response_schema or "")`,
compared as Python compares tuples of strings. -/
abbrev Canon := String × String × String × String

/-- Python `<` on canonical 4-tuples of strings. -/
def canonLtb : Canon → Canon → Bool :=
  lexLtb strLtb (lexLtb strLtb (lexLtb strLtb strLtb))

/-- Python `<=` on canonical 4-tuples (what `sorted` orders by). -/
def canonLeb (p q : Canon) : Bool := canonLtb p q || p == q

/-- Canonicalize one endpoint for hashing. -/
def canon_of (ep : Endpoint) : Canon :=
  (ep.method, ep.path,
    serializeOptSchema ep.request_schema, serializeOptSchema ep.response_schema)

/-- `json.dumps` rendering of one canonical tuple (a JSON array of four
strings). -/
def canon_json (c : Canon) : String :=
  json_arr [json_str c.1, json_str c.2.1, json_str c.2.2.1, json_str c.2.2.2]

/-- `compute_spec_hash` of `core/scanner.py`: sort the canonical tuples
(`sorted`), serialize deterministically (`json.dumps(canonical,
sort_keys=True)`: the payload holds no dict, so the flag is inert), hash
with SHA-256 and render the digest in hex. -/
def compute_spec_hash (endpoints : List Endpoint) : String :=
  let canonical := (endpoints.map canon_of).insertionSort (fun p q => canonLeb p q = true)
  sha256_hex (strBytes (json_arr (canonical.map canon_json)))

/-! ## Store (`core/store.py`), registry (`core/registry.py`) and impact
orchestrator (`core/impact.py`)

The SQLite store is modelled as a record of in-memory tables; each store
method of the source becomes a function threading the store exactly as
the source sequences its calls — reads return the store unchanged (a
`SELECT` writes nothing), writes return the updated record.  `SELECT`
is a filter, `ORDER BY` an insertion sort on the named columns,
`INSERT OR REPLACE` under a UNIQUE constraint deletes the conflicting
row and appends.  Generated version/report ids and timestamps are
outside the model. -/

/-- `RepoInfo` of `models/contracts.py` (registration timestamp outside
the model). -/
structure RepoInfo where
  name : String
  path : String
  contract_type : Option ContractType := none
deriving DecidableEq, Repr

/-- `Consumer` of `models/contracts.py`: one registered consumer edge
(registration timestamp outside the model). -/
structure Consumer where
  consumer_repo : String
  producer_repo : String
  endpoint_method : String
  endpoint_path : String
deriving DecidableEq, Repr

/-- `ContractVersion` of `models/contracts.py` (generated version id and
capture timestamp outside the model). -/
structure ContractVersion where
  repo_name : String
  spec_hash : String := ""
  endpoints : List Endpoint := []
deriving DecidableEq, Repr

/-- Modelled from the spec: `BreakingChange` is imported by
`core/impact.py`, `core/registry.py` and the tests from
`merovingian.models.contracts`, but its declaration is not among the
repository's files here.  Per §3 of the spec a detected change carries
repository, endpoint method/path, change kind, severity, description and
the post-hoc affected-consumer names — exactly the fields
`core/impact.py` constructs it with; like the other model records it is
a frozen (hashable, structurally compared) dataclass. -/
structure BreakingChange where
  repo_name : String
  endpoint_method : String
  endpoint_path : String
  change_kind : ChangeKind
  severity : Severity
  description : String
  affected_consumers : List String := []
deriving DecidableEq, Repr

/-- `ImpactReport` of `models/contracts.py` (generated report id and
creation timestamp outside the model). -/
structure ImpactReport where
  repo_name : String
  breaking_changes : List BreakingChange := []
  non_breaking_changes : List ContractChange := []
  consumer_count : Nat := 0
deriving DecidableEq, Repr

/-- The store's tables (`repos`, `endpoints`, `consumers`,
`contract_versions`, `impact_reports`), each a list of rows in insertion
order. -/
structure Store where
  repos : List RepoInfo := []
  endpoints : List Endpoint := []
  consumers : List Consumer := []
  versions : List ContractVersion := []
  reports : List ImpactReport := []
deriving DecidableEq, Repr

/-- `ORDER BY method, path` on endpoint rows (`BINARY` collation). -/
def endpointRowLeb (a b : Endpoint) : Bool :=
  strLtb a.method b.method || (a.method == b.method && strLeb a.path b.path)

/-- `ORDER BY consumer_repo` on consumer rows (`BINARY` collation). -/
def consumerRowLeb (a b : Consumer) : Bool :=
  strLeb a.consumer_repo b.consumer_repo

/-- `get_repo`: the row of the primary key, if any. -/
def Store.get_repo (s : Store) (name : String) : Option RepoInfo × Store :=
  (s.repos.find? (fun r => r.name == name), s)

/-- `get_endpoints`: `SELECT … WHERE repo_name=? ORDER BY method, path`. -/
def Store.get_endpoints (s : Store) (repo_name : String) : List Endpoint × Store :=
  ((s.endpoints.filter (fun ep => ep.repo_name == repo_name)).insertionSort
    (fun a b => endpointRowLeb a b = true), s)

/-- `get_consumers_of`: `SELECT … WHERE producer_repo=? AND
endpoint_method=? AND endpoint_path=?`. -/
def Store.get_consumers_of (s : Store) (producer_repo method path : String) :
    List Consumer × Store :=
  (s.consumers.filter (fun c =>
    c.producer_repo == producer_repo && c.endpoint_method == method &&
      c.endpoint_path == path), s)

/-- `get_consumers_of_repo`: `SELECT … WHERE producer_repo=? ORDER BY
consumer_repo`. -/
def Store.get_consumers_of_repo (s : Store) (producer_repo : String) :
    List Consumer × Store :=
  ((s.consumers.filter (fun c => c.producer_repo == producer_repo)).insertionSort
    (fun a b => consumerRowLeb a b = true), s)

/-- `save_version`: append-only insert. -/
def Store.save_version (s : Store) (v : ContractVersion) : Store :=
  { s with versions := s.versions ++ [v] }

/-- `delete_endpoints`: delete a repository's endpoint rows, returning the
count deleted. -/
def Store.delete_endpoints (s : Store) (repo_name : String) : Nat × Store :=
  ((s.endpoints.filter (fun ep => ep.repo_name == repo_name)).length,
   { s with endpoints := s.endpoints.filter (fun ep => !(ep.repo_name == repo_name)) })

/-- Row conflict under `UNIQUE(repo_name, method, path)`. -/
def endpointKeyMatches (a b : Endpoint) : Bool :=
  a.repo_name == b.repo_name && a.method == b.method && a.path == b.path

/-- `save_endpoints`: `INSERT OR REPLACE` of each row in order (the
conflicting row is deleted and the new row appended), returning the
count saved. -/
def Store.save_endpoints (s : Store) (eps : List Endpoint) : Nat × Store :=
  (eps.length,
   { s with
     endpoints :=
       eps.foldl (fun rows ep => rows.filter (fun r => !(endpointKeyMatches r ep)) ++ [ep])
         s.endpoints })

/-- `save_report`: append-only insert. -/
def Store.save_report (s : Store) (r : ImpactReport) : Store :=
  { s with reports := s.reports ++ [r] }

/-- The per-change body of `get_affected_consumers` of `core/registry.py`:
the consumers of the change's exact `(producer, method, path)`; when that
list is empty, the repository's consumer edges filtered to equal method
and equal path.  The source tabulates this into a dict keyed by the
(frozen, structurally hashed) change, which `core/impact.py` then reads
back per change; the value depends only on the change's fields and the
store, so the dict is this function on each key. -/
def affected_for (s : Store) (change : ContractChange) : List String :=
  let consumers := (s.get_consumers_of change.repo_name change.endpoint_method
    change.endpoint_path).1
  let consumer_names := consumers.map (fun c => c.consumer_repo)
  if consumer_names.isEmpty then
    let repo_consumers := (s.get_consumers_of_repo change.repo_name).1
    (repo_consumers.filter (fun c =>
      c.endpoint_method == change.endpoint_method &&
        c.endpoint_path == change.endpoint_path)).map (fun c => c.consumer_repo)
  else consumer_names

/-- Step 5 of `assess_impact`: rebuild a change as a `BreakingChange` with
the consumer names attached. -/
def attachConsumers (bc : ContractChange) (consumers : List String) : BreakingChange :=
  { repo_name := bc.repo_name, endpoint_method := bc.endpoint_method,
    endpoint_path := bc.endpoint_path, change_kind := bc.change_kind,
    severity := bc.severity, description := bc.description,
    affected_consumers := consumers }

/-- The distinct union of attached consumer names
(`all_consumers.update(consumers)` over the affected map's values; equal
changes hold equal value lists, so folding over the breaking list itself
builds the same set). -/
def allConsumersOf (s : Store) (breaking : List ContractChange) : Finset String :=
  breaking.foldl (fun acc bc => acc ∪ (affected_for s bc).toFinset) ∅

/-- `assess_impact` of `core/impact.py`.  The repository re-scan
(`scan_repo`, a filesystem read) enters as the `scanned` argument; the
raised `ValueError` for an unregistered repository is the `error` case. -/
def assess_impact (store : Store) (repo_name : String) (scanned : List Endpoint) :
    Except String (ImpactReport × Store) :=
  let (repo?, store) := store.get_repo repo_name
  match repo? with
  | none => .error s!"Repository '{repo_name}' not registered"
  | some _repo =>
    let (old_endpoints, store) := store.get_endpoints repo_name
    let new_endpoints := scanned
    let bn := diff_endpoints old_endpoints new_endpoints
    let breaking := bn.1
    let non_breaking := bn.2
    let breaking_with_consumers := breaking.map (fun bc =>
      attachConsumers bc (affected_for store bc))
    let all_consumers := allConsumersOf store breaking
    let spec_hash := compute_spec_hash new_endpoints
    let version : ContractVersion :=
      { repo_name := repo_name, spec_hash := spec_hash, endpoints := new_endpoints }
    let store := store.save_version version
    let (_, store) := store.delete_endpoints repo_name
    let (_, store) := store.save_endpoints new_endpoints
    let report : ImpactReport :=
      { repo_name := repo_name, breaking_changes := breaking_with_consumers,
        non_breaking_changes := non_breaking, consumer_count := all_consumers.card }
    let store := store.save_report report
    .ok (report, store)

/-- `check_breaking` of `core/impact.py`: scan + diff + consumer
attachment, calling no store mutator. -/
def check_breaking (store : Store) (repo_name : String) (scanned : List Endpoint) :
    Except String (List BreakingChange) × Store :=
  let (repo?, store) := store.get_repo repo_name
  match repo? with
  | none => (.error s!"Repository '{repo_name}' not registered", store)
  | some _repo =>
    let (old_endpoints, store) := store.get_endpoints repo_name
    let bn := diff_endpoints old_endpoints scanned
    let breaking := bn.1
    (.ok (breaking.map (fun bc => attachConsumers bc (affected_for store bc))), store)

/-! ## Scanner (`core/scanner.py`)

YAML parse results enter as a `Yaml` value (the shapes `yaml.safe_load`
yields for the OpenAPI format: scalars, sequences, string-keyed
mappings); a parse *failure* enters as the `error` case of an `Except`,
since `yaml.safe_load` raises `yaml.YAMLError` on malformed input and
`_parse_openapi_file` installs no handler.

Where the source would itself raise on shapes outside the OpenAPI format
(`.get` on a non-mapping, a non-string `$ref` value, a non-sequence
`allOf`), the model totalizes with the empty mapping/sequence; no claim
concerns those shapes.

`_resolve_ref` terminates on every input (each recursion step moves to a
`$ref` value of the components map not yet visited); it is embedded as
`resolveRefF` with explicit fuel plus the adequacy theorem
`resolveRefF_adequate` showing the fuel bound `refFuel` always suffices,
and `resolve_ref` runs it at that bound.  `_resolve_schema` recurses
through composition operators with a *fresh* visited set (`_seen` is
passed only along direct `$ref` chains), so it need not terminate; it is
embedded with explicit fuel (`none` = the recursion exceeds every depth,
what Python surfaces as `RecursionError`). -/

/-- A YAML/JSON document value as `yaml.safe_load` yields it for this
format: mappings keyed by strings, in document order. -/
inductive Yaml where
  | nullv
  | boolv (b : Bool)
  | numv (s : String)
  | str (s : String)
  | list (items : List Yaml)
  | map (entries : List (String × Yaml))

/-- The entries of a mapping; the empty list for any other value (where
the source would raise `AttributeError` on `.get`, outside the claims'
scope). -/
def Yaml.mapEntries : Yaml → List (String × Yaml)
  | .map es => es
  | _ => []

/-- `d.get(k, {})` on a mapping's entries. -/
def dictGetD (es : List (String × Yaml)) (k : String) : Yaml :=
  (getKey? k es).getD (.map [])

/-- The string-valued `$ref` entries among the immediate values of the
components map: every reference `_resolve_ref` can move to after its
first step. -/
def refVals (comps : List (String × Yaml)) : List String :=
  comps.filterMap (fun p => match p.2 with
    | .map es => match getKey? "$ref" es with
      | some (.str r) => some r
      | _ => none
    | _ => none)

/-- Fuel sufficient for `resolveRefF`: unvisited candidate references,
weighted, plus a constant. -/
def refFuel (comps : List (String × Yaml)) (ref : String) (seen : List String) : Nat :=
  2 * ((refVals comps).filter (fun r => !(seen.contains r))).length +
    (if seen.contains ref then 0 else if (refVals comps).contains ref then 1 else 2) + 1

/-- `ref.startswith(prefix)`, computed on the character sequences
(`String.startsWith` itself does not kernel-reduce). -/
def strStartsWith (s p : String) : Bool := p.data.isPrefixOf s.data

/-- `_resolve_ref` of `core/scanner.py` with explicit fuel: resolve a
`$ref` string against the components map, carrying the set of
already-visited reference names; a revisited reference yields the empty
mapping (the cycle break), a reference outside the `#/components/schemas/`
prefix or naming a missing or non-mapping definition yields the empty
mapping, and a direct `$ref` chain is followed recursively. -/
def resolveRefF : Nat → List (String × Yaml) → String → List String → Option Yaml
  | 0, _, _, _ => none
  | fuel + 1, comps, ref, seen =>
    if seen.contains ref then some (.map [])
    else
      let seen' := seen ++ [ref]
      if !(strStartsWith ref "#/components/schemas/") then some (.map [])
      else
        let schema_name := ref.drop 21
        match getKey? schema_name comps with
        | none => some (.map [])
        | some resolved =>
          match resolved with
          | .map es =>
            match getKey? "$ref" es with
            | some (.str r2) => resolveRefF fuel comps r2 seen'
            | some _ => some (.map [])
            | none => some (.map es)
          | _ => some (.map [])

/-- `_resolve_ref` itself: the fueled resolver at its sufficient fuel
(`resolveRefF_adequate` proves the default is never taken). -/
def resolve_ref (comps : List (String × Yaml)) (ref : String) (seen : List String) : Yaml :=
  (resolveRefF (refFuel comps ref seen) comps ref seen).getD (.map [])

/-- A string list from a YAML sequence (the `required` list); non-string
members never match a string field name and are dropped. -/
def yamlStrings : Yaml → List String
  | .list items => items.filterMap (fun y => match y with
      | .str s => some s
      | _ => none)
  | _ => []

/-- The accumulator start of the `allOf` merge: the merged properties
dict and the concatenated required list. -/
def allOfInit : List (String × Yaml) × List String := ([], [])

/-- One `allOf` branch folded into the merge:
`merged.update(resolved.get("properties", {}))` and
`merged_required.extend(resolved.get("required", []))`. -/
def allOfAccum (acc : List (String × Yaml) × List String) (resolved : Yaml) :
    List (String × Yaml) × List String :=
  let props : List (String × Yaml) := match resolved with
    | .map res => (dictGetD res "properties").mapEntries
    | _ => []
  let reqs : List String := match resolved with
    | .map res => yamlStrings ((getKey? "required" res).getD (.list []))
    | _ => []
  (props.foldl (fun m p => upsert p.1 p.2 m) acc.1, acc.2 ++ reqs)

/-- The mapping the `allOf` merge returns:
`{"type": "object", "properties": merged, "required": merged_required}`. -/
def allOfResult (merged : List (String × Yaml) × List String) : Yaml :=
  .map [("type", .str "object"), ("properties", .map merged.1),
    ("required", .list (merged.2.map .str))]

/-- `_resolve_schema` of `core/scanner.py` with explicit recursion depth:
resolve a direct `$ref` (with a fresh visited set, as in the source),
then merge `allOf` branches (later branches overwrite on name collision,
required lists concatenate), else take the first `anyOf`/`oneOf` branch
as representative, else return the node.  `none` = the composition
recursion exceeds every depth. -/
def resolve_schema : Nat → Yaml → List (String × Yaml) → Option Yaml
  | 0, _, _ => none
  | fuel + 1, schema, comps =>
    let schema := match schema with
      | .map es => match getKey? "$ref" es with
        | some (.str r) => resolve_ref comps r []
        | _ => .map es
      | other => other
    match schema with
    | .map es =>
      match getKey? "allOf" es with
      | some (.list subs) =>
        (subs.foldlM (fun acc sub =>
          (resolve_schema fuel sub comps).map (allOfAccum acc)) allOfInit).map allOfResult
      | some _ =>
        some (.map [("type", .str "object"), ("properties", .map []), ("required", .list [])])
      | none =>
        match getKey? "anyOf" es with
        | some (.list (s0 :: _)) => resolve_schema fuel s0 comps
        | _ =>
          match getKey? "oneOf" es with
          | some (.list (s0 :: _)) => resolve_schema fuel s0 comps
          | _ => some (.map es)
    | other => some other

/-- Whether an optional YAML value is the given string. -/
def isYamlStr (y : Option Yaml) (s : String) : Bool :=
  match y with
  | some (.str t) => t == s
  | _ => false

/-- `_schema_to_fields` of `core/scanner.py`: resolve the node, return
the empty table for a non-object-shaped result, else build one
`{type, required, default}` row per property (each property node
resolved in turn; a present non-string `type`/`default` is normalized,
see the module comment). -/
def schema_to_fields (fuel : Nat) (schema : Yaml) (comps : List (String × Yaml)) :
    Option FieldTable := do
  let schema ← resolve_schema fuel schema comps
  let es := schema.mapEntries
  if !(isYamlStr (getKey? "type" es) "object") && !(hasKey "properties" es) then
    return []
  else
    let properties := (dictGetD es "properties").mapEntries
    let required_fields := yamlStrings ((getKey? "required" es).getD (.list []))
    properties.foldlM (fun fields p => do
      let resolved ← resolve_schema fuel p.2 comps
      let res := resolved.mapEntries
      let ftype := match getKey? "type" res with
        | some (.str t) => t
        | _ => "object"
      let fdef := match getKey? "default" res with
        | some (.str d) => some d
        | _ => none
      return upsert p.1
        { ftype := some ftype, frequired := some (required_fields.contains p.1),
          fdefault := fdef } fields) []

/-- `_extract_request_schema` of `core/scanner.py`. -/
def extract_request_schema (fuel : Nat) (operation : List (String × Yaml))
    (comps : List (String × Yaml)) : Option FieldTable :=
  match (getKey? "requestBody" operation).getD (.map []) with
  | .map rb =>
    let content := (dictGetD rb "content").mapEntries
    let json_content := (dictGetD content "application/json").mapEntries
    let schema := dictGetD json_content "schema"
    schema_to_fields fuel schema comps
  | _ => some []

/-- The status loop of `_extract_response_schema`: the first preferred
success status whose resolved field table is non-empty wins. -/
def responseStatusLoop (fuel : Nat) (responses : List (String × Yaml))
    (comps : List (String × Yaml)) : List String → Option FieldTable
  | [] => some []
  | status :: rest =>
    match (getKey? status responses).getD (.map []) with
    | .map resp => do
      let content := (dictGetD resp "content").mapEntries
      let json_content := (dictGetD content "application/json").mapEntries
      let schema := dictGetD json_content "schema"
      let fields ← schema_to_fields fuel schema comps
      if fields.isEmpty then responseStatusLoop fuel responses comps rest
      else some fields
    | _ => responseStatusLoop fuel responses comps rest

/-- `_extract_response_schema` of `core/scanner.py`: statuses `200`,
`201`, `202` in order. -/
def extract_response_schema (fuel : Nat) (operation : List (String × Yaml))
    (comps : List (String × Yaml)) : Option FieldTable :=
  responseStatusLoop fuel ((dictGetD operation "responses").mapEntries) comps
    ["200", "201", "202"]

/-- The HTTP methods `_parse_openapi_file` probes, in order. -/
def openapiMethods : List String :=
  ["get", "post", "put", "patch", "delete", "head", "options"]

/-- `_parse_openapi_file` of `core/scanner.py` after the file read: the
input is the outcome of `yaml.safe_load` — a parse error (which the
source does not catch: it propagates, the `Except.error` case) or a
document.  A parsed document that is not a mapping yields no endpoints;
otherwise one endpoint per path/method operation, with summary, request
and response field tables.  The outer `Option` is the composition
recursion depth of the embedded resolver (`none` = `RecursionError`). -/
def parse_openapi_file (fuel : Nat) (parsed : Except String Yaml) (repo_name : String) :
    Option (Except String (List Endpoint)) :=
  match parsed with
  | .error e => some (.error e)
  | .ok spec =>
    match spec with
    | .map es =>
      let components_schemas := (dictGetD (dictGetD es "components").mapEntries "schemas").mapEntries
      let paths := (dictGetD es "paths").mapEntries
      (paths.foldlM (fun (acc : List Endpoint) (pp : String × Yaml) =>
        match pp.2 with
        | .map path_item =>
          openapiMethods.foldlM (fun (acc2 : List Endpoint) method =>
            match getKey? method path_item with
            | some (.map operation) => do
              let summary := match getKey? "summary" operation with
                | some (.str s) => s
                | _ => ""
              let request_schema ← extract_request_schema fuel operation components_schemas
              let response_schema ← extract_response_schema fuel operation components_schemas
              return acc2 ++ [({ repo_name := repo_name, method := method.toUpper,
                                 path := pp.1,
                                 summary := if summary == "" then none else some summary,
                                 request_schema :=
                                   if request_schema.isEmpty then none else some request_schema,
                                 response_schema :=
                                   if response_schema.isEmpty then none else some response_schema }
                                : Endpoint)]
            | _ => some acc2) acc
        | _ => some acc) []).map .ok
    | _ => some (.ok [])

/-! ## Model extractor (`_parse_pydantic_file` and helpers)

The Python file is read and parsed by `ast.parse`; the embedding starts
from the syntax tree: the `ClassDef` nodes `ast.walk` yields, each with
its base-class expressions and body statements.  A file whose read or
parse raises (`SyntaxError`, `UnicodeDecodeError`) enters as `none` —
the source catches exactly those and yields zero endpoints.  The dotted
module path (computed from the file's location under the repository
root) enters as an argument. -/

/-- The fragment of Python annotation expressions `_annotation_to_str`
recognizes.  `const` carries `str(node.value)`; `binop` records whether
the operator is `ast.BitOr`; `other` is any unrecognized node. -/
inductive PyExpr where
  | name (id : String)
  | const (rendered : String)
  | attr (value : PyExpr) (attrName : String)
  | subscript (value slice : PyExpr)
  | tup (elts : List PyExpr)
  | binop (isBitOr : Bool) (l r : PyExpr)
  | other

mutual

/-- `_annotation_to_str` of `core/scanner.py`: textual rendering of an
annotation expression, with `Any` for anything unrecognized. -/
def annotation_to_str : PyExpr → String
  | .name id => id
  | .const rendered => rendered
  | .attr v a => annotation_to_str v ++ "." ++ a
  | .subscript v sl => annotation_to_str v ++ "[" ++ annotation_to_str sl ++ "]"
  | .tup elts => String.intercalate ", " (annotationList elts)
  | .binop isBitOr l r =>
    if isBitOr then annotation_to_str l ++ " | " ++ annotation_to_str r else "Any"
  | .other => "Any"

/-- The renderings of a tuple's elements. -/
def annotationList : List PyExpr → List String
  | [] => []
  | e :: rest => annotation_to_str e :: annotationList rest

end

/-- A class-body statement as the field extractor distinguishes them:
an annotated assignment (`target` is the name when the target is an
`ast.Name`), a leading string-literal expression (docstring position),
or anything else. -/
inductive PyStmt where
  | annAssign (target : Option String) ( annotation : Option PyExpr) (hasValue : Bool)
  | exprConstStr (s : String)
  | otherStmt

/-- An `ast.ClassDef` as the extractor reads it. -/
structure PyClassDef where
  name : String
  bases : List PyExpr
  body : List PyStmt

/-- `_inherits_basemodel` of `core/scanner.py`: a base that is the plain
name `BaseModel` or an attribute access ending in `BaseModel`. -/
def inherits_basemodel (node : PyClassDef) : Bool :=
  node.bases.any (fun b => match b with
    | .name id => id == "BaseModel"
    | .attr _ a => a == "BaseModel"
    | _ => false)

/-- `_extract_class_fields` of `core/scanner.py`: every annotated
assignment to a plain name directly in the class body, `required` when
no default value is present, `default` stored as `None`. -/
def extract_class_fields (node : PyClassDef) : FieldTable :=
  node.body.foldl (fun fields item =>
    match item with
    | .annAssign (some field_name) ann hasValue =>
      let field_type := match ann with
        | some a => annotation_to_str a
        | none => "Any"
      upsert field_name
        { ftype := some field_type, frequired := some (!hasValue), fdefault := none }
        fields
    | _ => fields) []

/-- `_get_docstring` of `core/scanner.py`: the stripped leading
string-literal expression, if any. -/
def get_docstring (node : PyClassDef) : Option String :=
  match node.body with
  | .exprConstStr s :: _ => some s.trim
  | _ => none

/-- `_parse_pydantic_file` of `core/scanner.py` after reading and
parsing: `none` models a read/parse failure (caught: zero endpoints);
otherwise one endpoint per `BaseModel` subclass with at least one
extracted field — method the sentinel `SCHEMA`, path the dotted module
path joined with the class name, the field table stored as the response
schema only. -/
def parse_pydantic_file (parsed : Option (List PyClassDef))
    (module_path repo_name : String) : List Endpoint :=
  match parsed with
  | none => []
  | some classes =>
    classes.foldl (fun endpoints node =>
      if !(inherits_basemodel node) then endpoints
      else
        let fields := extract_class_fields node
        if fields.isEmpty then endpoints
        else
          endpoints ++ [{ repo_name := repo_name, method := "SCHEMA",
                          path := module_path ++ "." ++ node.name,
                          summary := get_docstring node,
                          response_schema := some fields }]) []

/-! ## Order lemmas

`charListLtb` is a strict total order (asymmetric, connected,
transitive); the lexicographic combinator preserves that; `canonLeb` is
therefore a total, transitive, antisymmetric order on canonical tuples —
what `List.eq_of_perm_of_sorted` needs for the hash's permutation
invariance. -/

/-- A boolean strict total order: asymmetric, connected and transitive. -/
structure IsStrictBoolOrder {α : Type} (lt : α → α → Bool) : Prop where
  asymm : ∀ a b, lt a b = true → lt b a = false
  conn : ∀ a b, lt a b = false → lt b a = false → a = b
  trans : ∀ a b c, lt a b = true → lt b c = true → lt a c = true

theorem charListLtb_asymm : ∀ x y, charListLtb x y = true → charListLtb y x = false := by
  intro x
  induction x with
  | nil => intro y h; cases y with
    | nil => simp [charListLtb] at h
    | cons b ys => simp [charListLtb]
  | cons a xs ih =>
    intro y h
    cases y with
    | nil => simp [charListLtb] at h
    | cons b ys =>
      simp only [charListLtb] at h ⊢
      split_ifs at h ⊢ <;> first | rfl | omega | exact ih ys h

theorem charListLtb_conn : ∀ x y, charListLtb x y = false → charListLtb y x = false → x = y := by
  intro x
  induction x with
  | nil => intro y h1 _; cases y with
    | nil => rfl
    | cons b ys => simp [charListLtb] at h1
  | cons a xs ih =>
    intro y h1 h2
    cases y with
    | nil => simp [charListLtb] at h2
    | cons b ys =>
      simp only [charListLtb] at h1 h2
      split_ifs at h1 h2 with hab hba
      · have hn : a.toNat = b.toNat := by omega
        have hval : a = b := Char.ext (by
          apply UInt32.ext
          simpa [Char.toNat] using hn)
        exact hval ▸ congrArg (List.cons a) (ih ys h1 h2)

theorem charListLtb_trans : ∀ x y z, charListLtb x y = true → charListLtb y z = true →
    charListLtb x z = true := by
  intro x
  induction x with
  | nil => intro y z h1 h2; cases z with
    | nil =>
      cases y with
      | nil => exact h1
      | cons b ys => simp [charListLtb] at h2
    | cons c zs => simp [charListLtb]
  | cons a xs ih =>
    intro y z h1 h2
    cases y with
    | nil => simp [charListLtb] at h1
    | cons b ys =>
      cases z with
      | nil => simp [charListLtb] at h2
      | cons c zs =>
        simp only [charListLtb] at h1 h2 ⊢
        split_ifs at h1 h2 ⊢ <;>
          first | rfl | omega | exact ih ys zs h1 h2

theorem charListLtb_strict : IsStrictBoolOrder charListLtb :=
  ⟨charListLtb_asymm, charListLtb_conn, charListLtb_trans⟩

theorem strLtb_strict : IsStrictBoolOrder strLtb := by
  refine ⟨?_, ?_, ?_⟩
  · intro a b h; exact charListLtb_asymm a.data b.data h
  · intro a b h1 h2
    have := charListLtb_conn a.data b.data h1 h2
    cases a; cases b; exact congrArg String.mk this
  · intro a b c h1 h2; exact charListLtb_trans a.data b.data c.data h1 h2

theorem strictBool_irrefl {α : Type} {lt : α → α → Bool} (h : IsStrictBoolOrder lt) :
    ∀ a, lt a a = false := by
  intro a
  cases hl : lt a a with
  | false => rfl
  | true => have := h.asymm a a hl; rw [this] at hl; exact absurd hl (by simp)

theorem lexLtb_strict {α β : Type} [DecidableEq α] {ltA : α → α → Bool} {ltB : β → β → Bool}
    (beqEq : ∀ a b : α, (a == b) = true ↔ a = b)
    (hA : IsStrictBoolOrder ltA) (hB : IsStrictBoolOrder ltB) :
    IsStrictBoolOrder (lexLtb ltA ltB) := by
  constructor
  · intro p q h
    simp only [lexLtb, Bool.or_eq_true, Bool.and_eq_true] at h
    simp only [lexLtb, Bool.or_eq_false_iff, Bool.and_eq_false_iff]
    rcases h with h | ⟨heq, h⟩
    · refine ⟨hA.asymm _ _ h, Or.inl ?_⟩
      cases hq : (q.1 == p.1) with
      | false => rfl
      | true =>
        have hqp : q.1 = p.1 := (beqEq _ _).1 hq
        rw [hqp] at h
        have := strictBool_irrefl hA p.1
        rw [this] at h
        exact absurd h (by simp)
    · have h1 : p.1 = q.1 := (beqEq _ _).1 heq
      constructor
      · rw [h1]; exact strictBool_irrefl hA q.1
      · exact Or.inr (hB.asymm _ _ h)
  · intro p q h1 h2
    simp only [lexLtb, Bool.or_eq_false_iff, Bool.and_eq_false_iff] at h1 h2
    obtain ⟨ha1, hb1⟩ := h1
    obtain ⟨ha2, hb2⟩ := h2
    have hfst : p.1 = q.1 := hA.conn _ _ ha1 ha2
    have heqb : (p.1 == q.1) = true := (beqEq _ _).2 hfst
    have heqb' : (q.1 == p.1) = true := (beqEq _ _).2 hfst.symm
    rcases hb1 with hb1 | hb1
    · rw [heqb] at hb1; exact absurd hb1 (by simp)
    · rcases hb2 with hb2 | hb2
      · rw [heqb'] at hb2; exact absurd hb2 (by simp)
      · have hsnd : p.2 = q.2 := hB.conn _ _ hb1 hb2
        exact Prod.ext hfst hsnd
  · intro p q r h1 h2
    simp only [lexLtb, Bool.or_eq_true, Bool.and_eq_true] at h1 h2 ⊢
    rcases h1 with h1 | ⟨he1, h1⟩ <;> rcases h2 with h2 | ⟨he2, h2⟩
    · exact Or.inl (hA.trans _ _ _ h1 h2)
    · have := (beqEq _ _).1 he2; exact Or.inl (this ▸ h1)
    · have := (beqEq _ _).1 he1; exact Or.inl (this ▸ h2)
    · have e1 := (beqEq _ _).1 he1
      have e2 := (beqEq _ _).1 he2
      exact Or.inr ⟨(beqEq _ _).2 (e1.trans e2), hB.trans _ _ _ h1 h2⟩

theorem string_beq_iff (a b : String) : (a == b) = true ↔ a = b := by
  constructor
  · exact fun h => eq_of_beq h
  · intro h; subst h; exact beq_self_eq_true a

theorem canonLtb_strict : IsStrictBoolOrder canonLtb :=
  lexLtb_strict string_beq_iff strLtb_strict
    (lexLtb_strict string_beq_iff strLtb_strict
      (lexLtb_strict string_beq_iff strLtb_strict strLtb_strict))

theorem canonLeb_total : ∀ p q : Canon, canonLeb p q = true ∨ canonLeb q p = true := by
  intro p q
  cases h1 : canonLtb p q with
  | true => exact Or.inl (by simp [canonLeb, h1])
  | false =>
    cases h2 : canonLtb q p with
    | true => exact Or.inr (by simp [canonLeb, h2])
    | false =>
      have : p = q := canonLtb_strict.conn p q h1 h2
      subst this
      exact Or.inl (by simp [canonLeb])

theorem canonLeb_antisymm : ∀ p q : Canon, canonLeb p q = true → canonLeb q p = true → p = q := by
  intro p q h1 h2
  simp only [canonLeb, Bool.or_eq_true] at h1 h2
  rcases h1 with h1 | h1
  · rcases h2 with h2 | h2
    · have := canonLtb_strict.asymm p q h1
      rw [this] at h2
      exact absurd h2 (by simp)
    · exact (eq_of_beq h2).symm
  · exact eq_of_beq h1

theorem canonLeb_trans : ∀ p q r : Canon, canonLeb p q = true → canonLeb q r = true →
    canonLeb p r = true := by
  intro p q r h1 h2
  simp only [canonLeb, Bool.or_eq_true] at h1 h2 ⊢
  rcases h1 with h1 | h1
  · rcases h2 with h2 | h2
    · exact Or.inl (canonLtb_strict.trans p q r h1 h2)
    · have := eq_of_beq h2; exact Or.inl (this ▸ h1)
  · have := eq_of_beq h1; subst this; exact h2

/-- Two permutations of canonical tuples have the same insertion sort:
the sorted order is unique for a total, transitive, antisymmetric
relation. -/
theorem insertionSort_canon_perm_eq {l l' : List Canon} (h : l.Perm l') :
    l.insertionSort (fun p q => canonLeb p q = true) =
      l'.insertionSort (fun p q => canonLeb p q = true) := by
  haveI : IsTotal Canon (fun p q => canonLeb p q = true) := ⟨canonLeb_total⟩
  haveI : IsTrans Canon (fun p q => canonLeb p q = true) := ⟨canonLeb_trans⟩
  haveI : IsAntisymm Canon (fun p q => canonLeb p q = true) := ⟨canonLeb_antisymm⟩
  exact List.eq_of_perm_of_sorted
    ((List.perm_insertionSort _ _).trans (h.trans (List.perm_insertionSort _ _).symm))
    (List.sorted_insertionSort _ _) (List.sorted_insertionSort _ _)

/-- C7: the snapshot hash is deterministic — `compute_spec_hash S =
compute_spec_hash S` — and invariant under permutation of the endpoint
list: for every permutation `Sp` of `S`, `compute_spec_hash Sp =
compute_spec_hash S`. -/
theorem compute_spec_hash_deterministic_perm_invariant (S Sp : List Endpoint)
    (h : S.Perm Sp) :
    compute_spec_hash S = compute_spec_hash S ∧
    compute_spec_hash Sp = compute_spec_hash S := by
  refine ⟨rfl, ?_⟩
  unfold compute_spec_hash
  rw [insertionSort_canon_perm_eq ((h.map canon_of).symm)]

/-- A first sample endpoint for concrete instances. -/
def epGetA : Endpoint :=
  { repo_name := "svc", method := "GET", path := "/a",
    response_schema := some [("id", { ftype := some "integer", frequired := some true })] }

/-- A second sample endpoint for concrete instances. -/
def epPostB : Endpoint :=
  { repo_name := "svc", method := "POST", path := "/b" }

/-- Witness for C7: the hash of a concrete two-endpoint list is unchanged
by swapping the list. -/
theorem compute_spec_hash_perm_witness :
    compute_spec_hash [epPostB, epGetA] = compute_spec_hash [epGetA, epPostB] :=
  (compute_spec_hash_deterministic_perm_invariant [epGetA, epPostB] [epPostB, epGetA]
    (by decide)).2

/-! ## Dictionary and string lemmas -/

theorem getKey?_eq_some_mem {κ α : Type} [DecidableEq κ] {k : κ} {v : α} :
    ∀ {l : List (κ × α)}, getKey? k l = some v → (k, v) ∈ l := by
  intro l
  induction l with
  | nil => intro h; simp [getKey?] at h
  | cons q rest ih =>
    intro h
    obtain ⟨k', v'⟩ := q
    simp only [getKey?] at h
    split_ifs at h with he
    · obtain rfl := he
      obtain rfl : v' = v := by injection h
      exact List.mem_cons_self _ _
    · exact List.mem_cons_of_mem _ (ih h)

theorem hasKey_iff_mem_keys {κ α : Type} [DecidableEq κ] (k : κ) (l : List (κ × α)) :
    hasKey k l = true ↔ k ∈ l.map Prod.fst := by
  induction l with
  | nil => simp [hasKey, getKey?]
  | cons q rest ih =>
    obtain ⟨k', v'⟩ := q
    simp only [hasKey, getKey?, List.map_cons]
    split_ifs with he
    · subst he; simp
    · simp only [Option.isSome] at ih ⊢
      rw [List.mem_cons]
      constructor
      · intro h; exact Or.inr ((ih.1 : _) h)
      · intro h
        rcases h with h | h
        · exact absurd h.symm he
        · exact ih.2 h

/-- Cancellation of the middle part of a three-part concatenation: the
descriptions below embed the field name between fixed pieces. -/
theorem mid_cancel (pre suf x y : String) (h : pre ++ x ++ suf = pre ++ y ++ suf) : x = y := by
  have h2 : (pre ++ x ++ suf).data = (pre ++ y ++ suf).data := congrArg String.data h
  simp only [String.data_append] at h2
  have h3 := List.append_cancel_right h2
  have h4 := List.append_cancel_left h3
  cases x; cases y; exact congrArg String.mk h4

/-! ## Differ lemmas and claims C4, C5, C6 -/

/-- The breaking change the source emits for a response-side field
removal. -/
def respFieldRemovedChange (repo_name method path field_name : String) : ContractChange :=
  { repo_name := repo_name, endpoint_method := method, endpoint_path := path,
    change_kind := .removed, severity := .breaking,
    description := s!"Response field '{field_name}' removed from {method} {path}" }

/-- The non-breaking change the source emits for a request-side field
removal. -/
def reqFieldRemovedChange (repo_name method path field_name : String) : ContractChange :=
  { repo_name := repo_name, endpoint_method := method, endpoint_path := path,
    change_kind := .removed, severity := .info,
    description := s!"Request field '{field_name}' removed from {method} {path}" }

theorem diff_schema_removed_response (o n : FieldTable) (r m p : String) :
    diff_schema_removed o n "response" r m p =
      (((o.map Prod.fst).filter (fun f => !(hasKey f n))).map (respFieldRemovedChange r m p),
        []) := rfl

theorem diff_schema_removed_request (o n : FieldTable) (r m p : String) :
    diff_schema_removed o n "request" r m p =
      ([], ((o.map Prod.fst).filter (fun f => !(hasKey f n))).map (reqFieldRemovedChange r m p)) :=
  rfl

theorem respFieldRemovedChange_injective (r m p : String) :
    Function.Injective (respFieldRemovedChange r m p) := by
  intro f1 f2 h
  have hd := congrArg ContractChange.description h
  simp only [respFieldRemovedChange] at hd
  refine mid_cancel "Response field '" ("' removed from " ++ (m ++ (" " ++ (p ++ "")))) f1 f2 ?_
  simpa [instToStringString, String.append_assoc] using hd

theorem reqFieldRemovedChange_injective (r m p : String) :
    Function.Injective (reqFieldRemovedChange r m p) := by
  intro f1 f2 h
  have hd := congrArg ContractChange.description h
  simp only [reqFieldRemovedChange] at hd
  refine mid_cancel "Request field '" ("' removed from " ++ (m ++ (" " ++ (p ++ "")))) f1 f2 ?_
  simpa [instToStringString, String.append_assoc] using hd

theorem classify_added_kind (d r m p : String) (q : String × FieldMeta) (c : ContractChange)
    (h : c ∈ (classify_added d r m p q).1 ∨ c ∈ (classify_added d r m p q).2) :
    c.change_kind = ChangeKind.added := by
  simp only [classify_added] at h
  split_ifs at h <;> rcases h with h | h <;> simp at h <;> subst h <;> rfl

theorem classify_type_change_kind (f ot nt d r m p : String) (c : ContractChange)
    (h : c ∈ (classify_type_change f ot nt d r m p).1 ∨
      c ∈ (classify_type_change f ot nt d r m p).2) :
    c.change_kind = ChangeKind.modified := by
  simp only [classify_type_change] at h
  split_ifs at h <;> rcases h with h | h <;> simp at h <;> subst h <;> rfl

theorem classify_required_change_kind (f : String) (orq nrq : Bool) (d r m p : String)
    (c : ContractChange)
    (h : c ∈ (classify_required_change f orq nrq d r m p).1 ∨
      c ∈ (classify_required_change f orq nrq d r m p).2) :
    c.change_kind = ChangeKind.modified := by
  simp only [classify_required_change] at h
  split_ifs at h <;> rcases h with h | h <;> simp at h <;> subst h <;> rfl

theorem diff_schema_added_kind (o n : FieldTable) (d r m p : String) (c : ContractChange)
    (h : c ∈ (diff_schema_added o n d r m p).1 ∨ c ∈ (diff_schema_added o n d r m p).2) :
    c.change_kind = ChangeKind.added := by
  simp only [diff_schema_added, List.map_map, List.mem_flatten, List.mem_map] at h
  rcases h with ⟨l, ⟨q, _, hql⟩, hc⟩ | ⟨l, ⟨q, _, hql⟩, hc⟩
  · exact classify_added_kind d r m p q c (Or.inl (by rw [← hql] at hc; exact hc))
  · exact classify_added_kind d r m p q c (Or.inr (by rw [← hql] at hc; exact hc))

theorem diff_schema_modified_one_kind (f : String) (om nm : FieldMeta) (d r m p : String)
    (c : ContractChange)
    (h : c ∈ (diff_schema_modified_one f om nm d r m p).1 ∨
      c ∈ (diff_schema_modified_one f om nm d r m p).2) :
    c.change_kind = ChangeKind.modified := by
  simp only [diff_schema_modified_one, List.mem_append] at h
  rcases h with (h | h) | (h | h)
  · exact classify_type_change_kind f _ _ d r m p c (Or.inl h)
  · exact classify_required_change_kind f _ _ d r m p c (Or.inl h)
  · exact classify_type_change_kind f _ _ d r m p c (Or.inr h)
  · exact classify_required_change_kind f _ _ d r m p c (Or.inr h)

theorem diff_schema_modified_kind (o n : FieldTable) (d r m p : String) (c : ContractChange)
    (h : c ∈ (diff_schema_modified o n d r m p).1 ∨ c ∈ (diff_schema_modified o n d r m p).2) :
    c.change_kind = ChangeKind.modified := by
  simp only [diff_schema_modified, List.map_map, List.mem_flatten, List.mem_map] at h
  rcases h with ⟨l, ⟨t, _, htl⟩, hc⟩ | ⟨l, ⟨t, _, htl⟩, hc⟩
  · exact diff_schema_modified_one_kind t.1 t.2.1 t.2.2 d r m p c
      (Or.inl (by rw [← htl] at hc; exact hc))
  · exact diff_schema_modified_one_kind t.1 t.2.1 t.2.2 d r m p c
      (Or.inr (by rw [← htl] at hc; exact hc))

/-- C4: for an endpoint identity present in both sets, a field present in
the old response field table and absent from the new one yields exactly
one BREAKING/REMOVED change (and no REMOVED entry among the non-breaking
changes), while the same removal in a request field table yields exactly
one non-breaking INFO/REMOVED change (and no REMOVED entry among the
breaking changes). -/
theorem field_removal_direction_asymmetry
    (old_schema new_schema : FieldTable) (repo m p f : String)
    (hnodup : (old_schema.map Prod.fst).Nodup)
    (hold : f ∈ old_schema.map Prod.fst)
    (hnew : hasKey f new_schema = false) :
    ((diff_schema old_schema new_schema "response" repo m p).1.count
        (respFieldRemovedChange repo m p f) = 1 ∧
      (diff_schema old_schema new_schema "response" repo m p).2.countP
        (fun c => c.change_kind == ChangeKind.removed) = 0) ∧
    ((diff_schema old_schema new_schema "request" repo m p).2.count
        (reqFieldRemovedChange repo m p f) = 1 ∧
      (diff_schema old_schema new_schema "request" repo m p).1.countP
        (fun c => c.change_kind == ChangeKind.removed) = 0) := by
  have hfmem : f ∈ (old_schema.map Prod.fst).filter (fun f => !(hasKey f new_schema)) :=
    List.mem_filter.2 ⟨hold, by simp [hnew]⟩
  have hfnodup : ((old_schema.map Prod.fst).filter (fun f => !(hasKey f new_schema))).Nodup :=
    hnodup.filter _
  constructor
  · constructor
    · show ((diff_schema_removed old_schema new_schema "response" repo m p).1 ++
        (diff_schema_added old_schema new_schema "response" repo m p).1 ++
        (diff_schema_modified old_schema new_schema "response" repo m p).1).count _ = 1
      rw [List.count_append, List.count_append]
      rw [diff_schema_removed_response]
      rw [List.count_map_of_injective _ _ (respFieldRemovedChange_injective repo m p)]
      rw [List.count_eq_one_of_mem hfnodup hfmem]
      rw [List.count_eq_zero.2, List.count_eq_zero.2]
      · intro hmem
        have := diff_schema_modified_kind old_schema new_schema "response" repo m p _
          (Or.inl hmem)
        simp [respFieldRemovedChange] at this
      · intro hmem
        have := diff_schema_added_kind old_schema new_schema "response" repo m p _
          (Or.inl hmem)
        simp [respFieldRemovedChange] at this
    · show ((diff_schema_removed old_schema new_schema "response" repo m p).2 ++
        (diff_schema_added old_schema new_schema "response" repo m p).2 ++
        (diff_schema_modified old_schema new_schema "response" repo m p).2).countP _ = 0
      rw [List.countP_append, List.countP_append]
      rw [diff_schema_removed_response]
      refine Nat.add_eq_zero.2 ⟨Nat.add_eq_zero.2 ⟨rfl, ?_⟩, ?_⟩
      · refine List.countP_eq_zero.2 ?_
        intro c hc
        have := diff_schema_added_kind old_schema new_schema "response" repo m p c (Or.inr hc)
        simp [this]
      · refine List.countP_eq_zero.2 ?_
        intro c hc
        have := diff_schema_modified_kind old_schema new_schema "response" repo m p c (Or.inr hc)
        simp [this]
  · constructor
    · show ((diff_schema_removed old_schema new_schema "request" repo m p).2 ++
        (diff_schema_added old_schema new_schema "request" repo m p).2 ++
        (diff_schema_modified old_schema new_schema "request" repo m p).2).count _ = 1
      rw [List.count_append, List.count_append]
      rw [diff_schema_removed_request]
      rw [List.count_map_of_injective _ _ (reqFieldRemovedChange_injective repo m p)]
      rw [List.count_eq_one_of_mem hfnodup hfmem]
      rw [List.count_eq_zero.2, List.count_eq_zero.2]
      · intro hmem
        have := diff_schema_modified_kind old_schema new_schema "request" repo m p _
          (Or.inr hmem)
        simp [reqFieldRemovedChange] at this
      · intro hmem
        have := diff_schema_added_kind old_schema new_schema "request" repo m p _
          (Or.inr hmem)
        simp [reqFieldRemovedChange] at this
    · show ((diff_schema_removed old_schema new_schema "request" repo m p).1 ++
        (diff_schema_added old_schema new_schema "request" repo m p).1 ++
        (diff_schema_modified old_schema new_schema "request" repo m p).1).countP _ = 0
      rw [List.countP_append, List.countP_append]
      rw [diff_schema_removed_request]
      refine Nat.add_eq_zero.2 ⟨Nat.add_eq_zero.2 ⟨rfl, ?_⟩, ?_⟩
      · refine List.countP_eq_zero.2 ?_
        intro c hc
        have := diff_schema_added_kind old_schema new_schema "request" repo m p c (Or.inl hc)
        simp [this]
      · refine List.countP_eq_zero.2 ?_
        intro c hc
        have := diff_schema_modified_kind old_schema new_schema "request" repo m p c (Or.inl hc)
        simp [this]

/-- Witness for C4 at a concrete one-field removal. -/
theorem field_removal_direction_asymmetry_witness :
    ((diff_schema [("id", { ftype := some "integer", frequired := some true })] []
        "response" "svc" "GET" "/o").1.count
        (respFieldRemovedChange "svc" "GET" "/o" "id") = 1 ∧
      (diff_schema [("id", { ftype := some "integer", frequired := some true })] []
        "response" "svc" "GET" "/o").2.countP
        (fun c => c.change_kind == ChangeKind.removed) = 0) ∧
    ((diff_schema [("id", { ftype := some "integer", frequired := some true })] []
        "request" "svc" "GET" "/o").2.count
        (reqFieldRemovedChange "svc" "GET" "/o" "id") = 1 ∧
      (diff_schema [("id", { ftype := some "integer", frequired := some true })] []
        "request" "svc" "GET" "/o").1.countP
        (fun c => c.change_kind == ChangeKind.removed) = 0) :=
  field_removal_direction_asymmetry
    [("id", { ftype := some "integer", frequired := some true })] [] "svc" "GET" "/o" "id"
    (by decide) (by decide) (by decide)

/-- The breaking change the source emits for a required request-side
field addition. -/
def reqRequiredAddedChange (repo_name method path field_name : String) : ContractChange :=
  { repo_name := repo_name, endpoint_method := method, endpoint_path := path,
    change_kind := .added, severity := .breaking,
    description := s!"Required request field '{field_name}' added to {method} {path}" }

/-- The non-breaking change the source emits for a response-side field
addition. -/
def respAddedChange (repo_name method path field_name : String) : ContractChange :=
  { repo_name := repo_name, endpoint_method := method, endpoint_path := path,
    change_kind := .added, severity := .info,
    description := s!"Response field '{field_name}' added to {method} {path}" }

/-- The non-breaking change the source emits for an optional request-side
field addition. -/
def optReqAddedChange (repo_name method path field_name : String) : ContractChange :=
  { repo_name := repo_name, endpoint_method := method, endpoint_path := path,
    change_kind := .added, severity := .info,
    description := s!"Optional request field '{field_name}' added to {method} {path}" }

theorem classify_added_request_required (r m p f : String) (meta : FieldMeta)
    (h : meta.frequired.getD false = true) :
    classify_added "request" r m p (f, meta) = ([reqRequiredAddedChange r m p f], []) := by
  simp [classify_added, h, reqRequiredAddedChange]

theorem classify_added_response (r m p f : String) (meta : FieldMeta) :
    classify_added "response" r m p (f, meta) = ([], [respAddedChange r m p f]) := rfl

theorem classify_added_request_optional (r m p f : String) (meta : FieldMeta)
    (h : meta.frequired.getD false = false) :
    classify_added "request" r m p (f, meta) = ([], [optReqAddedChange r m p f]) := by
  simp [classify_added, h, optReqAddedChange]

/-- A field of the new table absent from the old table contributes its
classification to the assembled diff lists. -/
theorem diff_schema_added_mem (o n : FieldTable) (d r m p : String) (q : String × FieldMeta)
    (hq : q ∈ n) (hnot : hasKey q.1 o = false) (c : ContractChange) :
    (c ∈ (classify_added d r m p q).1 → c ∈ (diff_schema o n d r m p).1) ∧
    (c ∈ (classify_added d r m p q).2 → c ∈ (diff_schema o n d r m p).2) := by
  constructor
  · intro hc
    show c ∈ (diff_schema_removed o n d r m p).1 ++ (diff_schema_added o n d r m p).1 ++
      (diff_schema_modified o n d r m p).1
    refine List.mem_append.2 (Or.inl (List.mem_append.2 (Or.inr ?_)))
    simp only [diff_schema_added, List.map_map, List.mem_flatten, List.mem_map]
    exact ⟨(classify_added d r m p q).1,
      ⟨q, List.mem_filter.2 ⟨hq, by simp [hnot]⟩, rfl⟩, hc⟩
  · intro hc
    show c ∈ (diff_schema_removed o n d r m p).2 ++ (diff_schema_added o n d r m p).2 ++
      (diff_schema_modified o n d r m p).2
    refine List.mem_append.2 (Or.inl (List.mem_append.2 (Or.inr ?_)))
    simp only [diff_schema_added, List.map_map, List.mem_flatten, List.mem_map]
    exact ⟨(classify_added d r m p q).2,
      ⟨q, List.mem_filter.2 ⟨hq, by simp [hnot]⟩, rfl⟩, hc⟩

/-- C5: for an endpoint identity present in both sets, a field present
only in the new field table is classified BREAKING/ADDED when it is
required and in the request direction, INFO/ADDED in the response
direction regardless of requiredness, and INFO/ADDED when it is optional
in the request direction. -/
theorem field_addition_classification
    (old_schema new_schema : FieldTable) (repo m p f : String) (meta : FieldMeta)
    (hmem : (f, meta) ∈ new_schema)
    (hold : hasKey f old_schema = false) :
    (meta.frequired.getD false = true →
      classify_added "request" repo m p (f, meta) = ([reqRequiredAddedChange repo m p f], []) ∧
      reqRequiredAddedChange repo m p f ∈
        (diff_schema old_schema new_schema "request" repo m p).1) ∧
    (classify_added "response" repo m p (f, meta) = ([], [respAddedChange repo m p f]) ∧
      respAddedChange repo m p f ∈ (diff_schema old_schema new_schema "response" repo m p).2) ∧
    (meta.frequired.getD false = false →
      classify_added "request" repo m p (f, meta) = ([], [optReqAddedChange repo m p f]) ∧
      optReqAddedChange repo m p f ∈
        (diff_schema old_schema new_schema "request" repo m p).2) := by
  refine ⟨fun hreq => ⟨classify_added_request_required repo m p f meta hreq, ?_⟩,
    ⟨classify_added_response repo m p f meta, ?_⟩,
    fun hopt => ⟨classify_added_request_optional repo m p f meta hopt, ?_⟩⟩
  · refine (diff_schema_added_mem old_schema new_schema "request" repo m p (f, meta) hmem
      hold _).1 ?_
    rw [classify_added_request_required repo m p f meta hreq]
    exact List.mem_singleton.2 rfl
  · refine (diff_schema_added_mem old_schema new_schema "response" repo m p (f, meta) hmem
      hold _).2 ?_
    rw [classify_added_response repo m p f meta]
    exact List.mem_singleton.2 rfl
  · refine (diff_schema_added_mem old_schema new_schema "request" repo m p (f, meta) hmem
      hold _).2 ?_
    rw [classify_added_request_optional repo m p f meta hopt]
    exact List.mem_singleton.2 rfl

/-- Witness for C5 at a concrete one-field addition. -/
theorem field_addition_classification_witness :
    (({ frequired := some true : FieldMeta }.frequired.getD false) = true →
      classify_added "request" "svc" "POST" "/u" ("email", { frequired := some true }) =
        ([reqRequiredAddedChange "svc" "POST" "/u" "email"], []) ∧
      reqRequiredAddedChange "svc" "POST" "/u" "email" ∈
        (diff_schema [] [("email", { frequired := some true })] "request" "svc" "POST" "/u").1) ∧
    (classify_added "response" "svc" "POST" "/u" ("email", { frequired := some true }) =
        ([], [respAddedChange "svc" "POST" "/u" "email"]) ∧
      respAddedChange "svc" "POST" "/u" "email" ∈
        (diff_schema [] [("email", { frequired := some true })] "response" "svc" "POST" "/u").2) ∧
    (({ frequired := some true : FieldMeta }.frequired.getD false) = false →
      classify_added "request" "svc" "POST" "/u" ("email", { frequired := some true }) =
        ([], [optReqAddedChange "svc" "POST" "/u" "email"]) ∧
      optReqAddedChange "svc" "POST" "/u" "email" ∈
        (diff_schema [] [("email", { frequired := some true })] "request" "svc" "POST" "/u").2) :=
  field_addition_classification [] [("email", { frequired := some true })] "svc" "POST" "/u"
    "email" { frequired := some true } (by decide) (by decide)

/-- The non-breaking change the source emits for a type widening. -/
def typeWidenedChange (repo_name method path direction field_name old_type new_type : String) :
    ContractChange :=
  { repo_name := repo_name, endpoint_method := method, endpoint_path := path,
    change_kind := .modified, severity := .warning,
    description := s!"Field '{field_name}' type widened from '{old_type}' to '{new_type}' in {direction} of {method} {path}" }

/-- The breaking change the source emits for a non-widening type change. -/
def typeChangedChange (repo_name method path direction field_name old_type new_type : String) :
    ContractChange :=
  { repo_name := repo_name, endpoint_method := method, endpoint_path := path,
    change_kind := .modified, severity := .breaking,
    description := s!"Field '{field_name}' type changed from '{old_type}' to '{new_type}' in {direction} of {method} {path}" }

theorem classify_type_change_widening (f ot nt d r m p : String)
    (hne : ot ≠ nt) (hw : is_type_widening ot nt = true) :
    classify_type_change f ot nt d r m p = ([], [typeWidenedChange r m p d f ot nt]) := by
  simp [classify_type_change, hne, hw, typeWidenedChange]

theorem classify_type_change_non_widening (f ot nt d r m p : String)
    (hne : ot ≠ nt) (hw : is_type_widening ot nt = false) :
    classify_type_change f ot nt d r m p = ([typeChangedChange r m p d f ot nt], []) := by
  simp [classify_type_change, hne, hw, typeChangedChange]

/-- A field present in both tables contributes its per-field modified
classification to the assembled diff lists. -/
theorem diff_schema_modified_mem (o n : FieldTable) (d r m p f : String) (om nm : FieldMeta)
    (hmem : (f, om) ∈ o) (hnm : getKey? f n = some nm) (c : ContractChange) :
    (c ∈ (diff_schema_modified_one f om nm d r m p).1 → c ∈ (diff_schema o n d r m p).1) ∧
    (c ∈ (diff_schema_modified_one f om nm d r m p).2 → c ∈ (diff_schema o n d r m p).2) := by
  have hboth : (f, om, nm) ∈ o.filterMap (fun q =>
      (getKey? q.1 n).map (fun nf => (q.1, q.2, nf))) :=
    List.mem_filterMap.2 ⟨(f, om), hmem, by simp [hnm]⟩
  constructor
  · intro hc
    show c ∈ (diff_schema_removed o n d r m p).1 ++ (diff_schema_added o n d r m p).1 ++
      (diff_schema_modified o n d r m p).1
    refine List.mem_append.2 (Or.inr ?_)
    simp only [diff_schema_modified, List.map_map, List.mem_flatten, List.mem_map]
    exact ⟨(diff_schema_modified_one f om nm d r m p).1, ⟨(f, om, nm), hboth, rfl⟩, hc⟩
  · intro hc
    show c ∈ (diff_schema_removed o n d r m p).2 ++ (diff_schema_added o n d r m p).2 ++
      (diff_schema_modified o n d r m p).2
    refine List.mem_append.2 (Or.inr ?_)
    simp only [diff_schema_modified, List.map_map, List.mem_flatten, List.mem_map]
    exact ⟨(diff_schema_modified_one f om nm d r m p).2, ⟨(f, om, nm), hboth, rfl⟩, hc⟩

/-- C6: for a field present in both tables, in either direction, a type
change along the fixed widening allow-list is classified
WARNING/MODIFIED and lands among the non-breaking changes; a type change
outside the allow-list is classified BREAKING/MODIFIED and lands among
the breaking changes. -/
theorem type_change_classification
    (old_schema new_schema : FieldTable) (repo m p dir f : String) (om nm : FieldMeta)
    (hmem : (f, om) ∈ old_schema) (hnm : getKey? f new_schema = some nm)
    (hne : om.ftype.getD "" ≠ nm.ftype.getD "") :
    (is_type_widening (om.ftype.getD "") (nm.ftype.getD "") = true →
      classify_type_change f (om.ftype.getD "") (nm.ftype.getD "") dir repo m p =
        ([], [typeWidenedChange repo m p dir f (om.ftype.getD "") (nm.ftype.getD "")]) ∧
      typeWidenedChange repo m p dir f (om.ftype.getD "") (nm.ftype.getD "") ∈
        (diff_schema old_schema new_schema dir repo m p).2) ∧
    (is_type_widening (om.ftype.getD "") (nm.ftype.getD "") = false →
      classify_type_change f (om.ftype.getD "") (nm.ftype.getD "") dir repo m p =
        ([typeChangedChange repo m p dir f (om.ftype.getD "") (nm.ftype.getD "")], []) ∧
      typeChangedChange repo m p dir f (om.ftype.getD "") (nm.ftype.getD "") ∈
        (diff_schema old_schema new_schema dir repo m p).1) := by
  constructor
  · intro hw
    refine ⟨classify_type_change_widening _ _ _ _ _ _ _ hne hw, ?_⟩
    refine (diff_schema_modified_mem old_schema new_schema dir repo m p f om nm hmem hnm _).2 ?_
    show _ ∈ (classify_type_change f (om.ftype.getD "") (nm.ftype.getD "") dir repo m p).2 ++
      (classify_required_change f (om.frequired.getD false) (nm.frequired.getD false)
        dir repo m p).2
    rw [classify_type_change_widening _ _ _ _ _ _ _ hne hw]
    exact List.mem_append.2 (Or.inl (List.mem_singleton.2 rfl))
  · intro hw
    refine ⟨classify_type_change_non_widening _ _ _ _ _ _ _ hne hw, ?_⟩
    refine (diff_schema_modified_mem old_schema new_schema dir repo m p f om nm hmem hnm _).1 ?_
    show _ ∈ (classify_type_change f (om.ftype.getD "") (nm.ftype.getD "") dir repo m p).1 ++
      (classify_required_change f (om.frequired.getD false) (nm.frequired.getD false)
        dir repo m p).1
    rw [classify_type_change_non_widening _ _ _ _ _ _ _ hne hw]
    exact List.mem_append.2 (Or.inl (List.mem_singleton.2 rfl))

/-- Witness for C6: an `integer → number` widening on the response side
and (through the same theorem at another table) the general statement at
a concrete field. -/
theorem type_change_classification_witness :
    (is_type_widening "integer" "number" = true →
      classify_type_change "score" "integer" "number" "response" "svc" "GET" "/s" =
        ([], [typeWidenedChange "svc" "GET" "/s" "response" "score" "integer" "number"]) ∧
      typeWidenedChange "svc" "GET" "/s" "response" "score" "integer" "number" ∈
        (diff_schema [("score", { ftype := some "integer" })]
          [("score", { ftype := some "number" })] "response" "svc" "GET" "/s").2) ∧
    (is_type_widening "integer" "number" = false →
      classify_type_change "score" "integer" "number" "response" "svc" "GET" "/s" =
        ([typeChangedChange "svc" "GET" "/s" "response" "score" "integer" "number"], []) ∧
      typeChangedChange "svc" "GET" "/s" "response" "score" "integer" "number" ∈
        (diff_schema [("score", { ftype := some "integer" })]
          [("score", { ftype := some "number" })] "response" "svc" "GET" "/s").1) :=
  type_change_classification [("score", { ftype := some "integer" })]
    [("score", { ftype := some "number" })] "svc" "GET" "/s" "response" "score"
    { ftype := some "integer" } { ftype := some "number" } (by decide) (by decide) (by decide)

/-! ## Claims C9 (model extractor invariant), C10 (consumer lookup),
C8 (no persistence) -/

/-- A response-side removal lands in the breaking list of the field
diff. -/
theorem respFieldRemoved_mem_diff_schema (t1 t2 : FieldTable) (r m p f : String)
    (hf : f ∈ t1.map Prod.fst) (hnot : hasKey f t2 = false) :
    respFieldRemovedChange r m p f ∈ (diff_schema t1 t2 "response" r m p).1 := by
  show _ ∈ (diff_schema_removed t1 t2 "response" r m p).1 ++
    (diff_schema_added t1 t2 "response" r m p).1 ++
    (diff_schema_modified t1 t2 "response" r m p).1
  refine List.mem_append.2 (Or.inl (List.mem_append.2 (Or.inl ?_)))
  rw [diff_schema_removed_response]
  exact List.mem_map.2 ⟨f, List.mem_filter.2 ⟨hf, by simp [hnot]⟩, rfl⟩

/-- C9: every endpoint the model extractor produces has the sentinel
method `SCHEMA`, an absent request schema, and its (non-empty) field
table stored solely as the response schema — so in a subsequent diff of
two such endpoints, removing a field is classified under the
response-direction rules, i.e. as BREAKING. -/
theorem model_extractor_response_only :
    (∀ parsed module_path repo_name ep,
      ep ∈ parse_pydantic_file parsed module_path repo_name →
      ep.method = "SCHEMA" ∧ ep.request_schema = none ∧
        ∃ t, t ≠ [] ∧ ep.response_schema = some t) ∧
    (∀ (e1 e2 : Endpoint) (t1 t2 : FieldTable) (f : String),
      e1.method = e2.method → e1.path = e2.path →
      e1.request_schema = none → e2.request_schema = none →
      e1.response_schema = some t1 → e2.response_schema = some t2 →
      f ∈ t1.map Prod.fst → hasKey f t2 = false →
      respFieldRemovedChange e1.repo_name e1.method e1.path f ∈
        (diff_endpoints [e1] [e2]).1) := by
  constructor
  · intro parsed module_path repo_name ep hmem
    match parsed with
    | none => simp [parse_pydantic_file] at hmem
    | some classes =>
      simp only [parse_pydantic_file] at hmem
      suffices h : ∀ (cs : List PyClassDef) (acc : List Endpoint),
          (∀ e ∈ acc, e.method = "SCHEMA" ∧ e.request_schema = none ∧
            ∃ t, t ≠ [] ∧ e.response_schema = some t) →
          ∀ e ∈ cs.foldl (fun endpoints node =>
            if !(inherits_basemodel node) then endpoints
            else
              let fields := extract_class_fields node
              if fields.isEmpty then endpoints
              else
                endpoints ++ [{ repo_name := repo_name, method := "SCHEMA",
                                path := module_path ++ "." ++ node.name,
                                summary := get_docstring node,
                                response_schema := some fields }]) acc,
          e.method = "SCHEMA" ∧ e.request_schema = none ∧
            ∃ t, t ≠ [] ∧ e.response_schema = some t by
        exact h classes [] (by simp) ep hmem
      intro cs
      induction cs with
      | nil => intro acc hacc e he; exact hacc e he
      | cons node rest ih =>
        intro acc hacc e he
        simp only [List.foldl_cons] at he
        refine ih _ ?_ e he
        split_ifs with h1 h2
        · exact hacc
        · exact hacc
        · intro e' he'
          rcases List.mem_append.1 he' with h | h
          · exact hacc e' h
          · have : e' = { repo_name := repo_name, method := "SCHEMA",
                           path := module_path ++ "." ++ node.name,
                           summary := get_docstring node,
                           response_schema := some (extract_class_fields node) } := by
              simpa using h
            subst this
            refine ⟨rfl, rfl, extract_class_fields node, ?_, rfl⟩
            intro hnil
            rw [hnil] at h2
            exact h2 rfl
  · intro e1 e2 t1 t2 f hm hp hreq1 hreq2 hresp1 hresp2 hf hnot
    have ht1ne : t1 ≠ [] := by
      intro h; rw [h] at hf; simp at hf
    have hkey : (e2.method, e2.path) = (e1.method, e1.path) := by rw [hm, hp]
    show _ ∈ (diff_endpoints [e1] [e2]).1
    simp only [diff_endpoints, endpointMap, List.foldl, upsert, hkey]
    simp only [hasKey, getKey?, if_pos rfl, Option.isSome, Bool.not_true, List.filter,
      List.filterMap, Option.map, List.map, List.flatten]
    rw [List.nil_append, List.append_nil]
    show _ ∈ (diff_endpoints_common e1 e2).1
    simp only [diff_endpoints_common, parse_schema, hreq1, hreq2, hresp1, hresp2,
      Option.getD_some, Option.getD_none]
    rw [if_neg (by simp), if_pos (Or.inl ht1ne)]
    show _ ∈ (diff_schema t1 t2 "response" e1.repo_name e1.method e1.path).1
    exact respFieldRemoved_mem_diff_schema t1 t2 e1.repo_name e1.method e1.path f hf hnot

/-- C10: for every breaking change, the affected-consumer lookup is
equivalent to the direct per-endpoint lookup over the same consumer
data — the repo-level fallback filters edges by equal method and equal
path, so it runs only when the direct lookup is empty and then yields
the same (empty) result — and every attached name belongs to a consumer
registered against exactly the change's `(method, path)` on the same
producer. -/
theorem affected_consumers_exact (s : Store) (change : ContractChange) :
    affected_for s change =
      ((s.get_consumers_of change.repo_name change.endpoint_method
        change.endpoint_path).1).map (fun c => c.consumer_repo) ∧
    ∀ name ∈ affected_for s change, ∃ c ∈ s.consumers,
      c.consumer_repo = name ∧ c.producer_repo = change.repo_name ∧
      c.endpoint_method = change.endpoint_method ∧
      c.endpoint_path = change.endpoint_path := by
  have hdirect : ∀ c ∈ (s.get_consumers_of change.repo_name change.endpoint_method
      change.endpoint_path).1, c ∈ s.consumers ∧ c.producer_repo = change.repo_name ∧
      c.endpoint_method = change.endpoint_method ∧ c.endpoint_path = change.endpoint_path := by
    intro c hc
    simp only [Store.get_consumers_of, List.mem_filter, Bool.and_eq_true, beq_iff_eq] at hc
    exact ⟨hc.1, hc.2.1.1, hc.2.1.2, hc.2.2⟩
  have hmain : affected_for s change =
      ((s.get_consumers_of change.repo_name change.endpoint_method
        change.endpoint_path).1).map (fun c => c.consumer_repo) := by
    unfold affected_for
    set names := ((s.get_consumers_of change.repo_name change.endpoint_method
      change.endpoint_path).1).map (fun c => c.consumer_repo) with hnames
    by_cases hemp : names.isEmpty
    · rw [if_pos hemp]
      have hnil : names = [] := List.isEmpty_iff.1 hemp
      rw [hnil]
      refine List.map_eq_nil_iff.2 ?_
      refine List.eq_nil_iff_forall_not_mem.2 ?_
      intro c hc
      have hc1 : c ∈ (s.get_consumers_of_repo change.repo_name).1 ∧
          (c.endpoint_method == change.endpoint_method &&
            c.endpoint_path == change.endpoint_path) = true := by
        simpa [List.mem_filter] using hc
      have hc2 : c ∈ s.consumers.filter (fun c => c.producer_repo == change.repo_name) := by
        have hperm := List.perm_insertionSort
          (fun a b => consumerRowLeb a b = true)
          (s.consumers.filter (fun c => c.producer_repo == change.repo_name))
        exact hperm.subset hc1.1
      have hc3 : c ∈ (s.get_consumers_of change.repo_name change.endpoint_method
          change.endpoint_path).1 := by
        simp only [List.mem_filter, beq_iff_eq] at hc2
        simp only [Bool.and_eq_true, beq_iff_eq] at hc1
        simp only [Store.get_consumers_of, List.mem_filter, Bool.and_eq_true, beq_iff_eq]
        exact ⟨hc2.1, ⟨hc2.2, hc1.2.1⟩, hc1.2.2⟩
      have : c.consumer_repo ∈ names := List.mem_map.2 ⟨c, hc3, rfl⟩
      rw [hnil] at this
      simp at this
    · rw [if_neg hemp]
  refine ⟨hmain, ?_⟩
  intro name hname
  rw [hmain] at hname
  obtain ⟨c, hc, hcname⟩ := List.mem_map.1 hname
  obtain ⟨hmem, hprod, hmeth, hpath⟩ := hdirect c hc
  exact ⟨c, hmem, hcname, hprod, hmeth, hpath⟩

/-- C8: `check_breaking` performs no persistence — the store (its
endpoint, version and report tables included) is returned exactly as it
was — and on success returns precisely the diff's breaking list with
affected consumers attached. -/
theorem check_breaking_no_persistence (store : Store) (repo_name : String)
    (scanned : List Endpoint) :
    (check_breaking store repo_name scanned).2 = store ∧
    ∀ bcs, (check_breaking store repo_name scanned).1 = .ok bcs →
      bcs = ((diff_endpoints (store.get_endpoints repo_name).1 scanned).1).map
        (fun bc => attachConsumers bc (affected_for store bc)) := by
  constructor
  · show (check_breaking store repo_name scanned).2 = store
    unfold check_breaking Store.get_repo
    cases store.repos.find? (fun r => r.name == repo_name) <;> rfl
  · intro bcs h
    unfold check_breaking Store.get_repo at h
    cases hf : store.repos.find? (fun r => r.name == repo_name) with
    | none => rw [hf] at h; exact absurd h (by simp)
    | some r =>
      rw [hf] at h
      simpa using h.symm

/-! ## Claim C3 (consumer propagation through `assess_impact`) -/

theorem upsert_mem {κ α : Type} [DecidableEq κ] {k : κ} {v : α} :
    ∀ {l : List (κ × α)} {kv : κ × α}, kv ∈ upsert k v l → kv ∈ l ∨ kv = (k, v) := by
  intro l
  induction l with
  | nil => intro kv h; simp [upsert] at h; exact Or.inr h
  | cons q rest ih =>
    intro kv h
    obtain ⟨k', v'⟩ := q
    simp only [upsert] at h
    split_ifs at h with he
    · rcases List.mem_cons.1 h with h | h
      · exact Or.inr h
      · exact Or.inl (List.mem_cons_of_mem _ h)
    · rcases List.mem_cons.1 h with h | h
      · exact Or.inl (List.mem_cons.2 (Or.inl h))
      · rcases ih h with h | h
        · exact Or.inl (List.mem_cons_of_mem _ h)
        · exact Or.inr h

/-- Every value of the endpoint-identity map satisfies any property all
listed endpoints satisfy. -/
theorem endpointMap_val_prop (P : Endpoint → Prop) :
    ∀ (l : List Endpoint) (acc : List ((String × String) × Endpoint)),
      (∀ kv ∈ acc, P kv.2) → (∀ ep ∈ l, P ep) →
      ∀ kv ∈ l.foldl (fun m ep => upsert (ep.method, ep.path) ep m) acc, P kv.2 := by
  intro l
  induction l with
  | nil => intro acc hacc _ kv hkv; exact hacc kv hkv
  | cons ep rest ih =>
    intro acc hacc hl kv hkv
    simp only [List.foldl_cons] at hkv
    refine ih _ ?_ (fun e he => hl e (List.mem_cons_of_mem _ he)) kv hkv
    intro kv' hkv'
    rcases upsert_mem hkv' with h | h
    · exact hacc kv' h
    · rw [h]; exact hl ep (List.mem_cons_self _ _)

theorem classify_added_locus (d r m p : String) (q : String × FieldMeta) (c : ContractChange)
    (h : c ∈ (classify_added d r m p q).1 ∨ c ∈ (classify_added d r m p q).2) :
    c.repo_name = r ∧ c.endpoint_method = m ∧ c.endpoint_path = p := by
  simp only [classify_added] at h
  split_ifs at h <;> rcases h with h | h <;> simp at h <;> subst h <;>
    exact ⟨rfl, rfl, rfl⟩

theorem classify_type_change_locus (f ot nt d r m p : String) (c : ContractChange)
    (h : c ∈ (classify_type_change f ot nt d r m p).1 ∨
      c ∈ (classify_type_change f ot nt d r m p).2) :
    c.repo_name = r ∧ c.endpoint_method = m ∧ c.endpoint_path = p := by
  simp only [classify_type_change] at h
  split_ifs at h <;> rcases h with h | h <;> simp at h <;> subst h <;>
    exact ⟨rfl, rfl, rfl⟩

theorem classify_required_change_locus (f : String) (orq nrq : Bool) (d r m p : String)
    (c : ContractChange)
    (h : c ∈ (classify_required_change f orq nrq d r m p).1 ∨
      c ∈ (classify_required_change f orq nrq d r m p).2) :
    c.repo_name = r ∧ c.endpoint_method = m ∧ c.endpoint_path = p := by
  simp only [classify_required_change] at h
  split_ifs at h <;> rcases h with h | h <;> simp at h <;> subst h <;>
    exact ⟨rfl, rfl, rfl⟩

/-- Every change a field-level diff emits carries the given repository,
method and path. -/
theorem diff_schema_locus (o n : FieldTable) (d r m p : String) (c : ContractChange)
    (h : c ∈ (diff_schema o n d r m p).1 ∨ c ∈ (diff_schema o n d r m p).2) :
    c.repo_name = r ∧ c.endpoint_method = m ∧ c.endpoint_path = p := by
  have hsplit : (c ∈ (diff_schema_removed o n d r m p).1 ∨
      c ∈ (diff_schema_removed o n d r m p).2) ∨
      (c ∈ (diff_schema_added o n d r m p).1 ∨ c ∈ (diff_schema_added o n d r m p).2) ∨
      (c ∈ (diff_schema_modified o n d r m p).1 ∨
        c ∈ (diff_schema_modified o n d r m p).2) := by
    rcases h with h | h
    · have : c ∈ (diff_schema_removed o n d r m p).1 ++ (diff_schema_added o n d r m p).1 ++
        (diff_schema_modified o n d r m p).1 := h
      rcases List.mem_append.1 this with h2 | h2
      · rcases List.mem_append.1 h2 with h3 | h3
        · exact Or.inl (Or.inl h3)
        · exact Or.inr (Or.inl (Or.inl h3))
      · exact Or.inr (Or.inr (Or.inl h2))
    · have : c ∈ (diff_schema_removed o n d r m p).2 ++ (diff_schema_added o n d r m p).2 ++
        (diff_schema_modified o n d r m p).2 := h
      rcases List.mem_append.1 this with h2 | h2
      · rcases List.mem_append.1 h2 with h3 | h3
        · exact Or.inl (Or.inr h3)
        · exact Or.inr (Or.inl (Or.inr h3))
      · exact Or.inr (Or.inr (Or.inr h2))
  rcases hsplit with h | h | h
  · simp only [diff_schema_removed] at h
    split_ifs at h <;> rcases h with h | h <;> simp at h <;>
      obtain ⟨f, -, hc⟩ := h <;> subst hc <;> exact ⟨rfl, rfl, rfl⟩
  · simp only [diff_schema_added, List.map_map, List.mem_flatten, List.mem_map] at h
    rcases h with ⟨l, ⟨q, -, hql⟩, hc⟩ | ⟨l, ⟨q, -, hql⟩, hc⟩
    · exact classify_added_locus d r m p q c (Or.inl (by rw [← hql] at hc; exact hc))
    · exact classify_added_locus d r m p q c (Or.inr (by rw [← hql] at hc; exact hc))
  · simp only [diff_schema_modified, List.map_map, List.mem_flatten, List.mem_map] at h
    rcases h with ⟨l, ⟨t, -, htl⟩, hc⟩ | ⟨l, ⟨t, -, htl⟩, hc⟩
    · have hone : c ∈ (diff_schema_modified_one t.1 t.2.1 t.2.2 d r m p).1 := by
        rw [← htl] at hc; exact hc
      rcases List.mem_append.1 hone with h2 | h2
      · exact classify_type_change_locus t.1 _ _ d r m p c (Or.inl h2)
      · exact classify_required_change_locus t.1 _ _ d r m p c (Or.inl h2)
    · have hone : c ∈ (diff_schema_modified_one t.1 t.2.1 t.2.2 d r m p).2 := by
        rw [← htl] at hc; exact hc
      rcases List.mem_append.1 hone with h2 | h2
      · exact classify_type_change_locus t.1 _ _ d r m p c (Or.inr h2)
      · exact classify_required_change_locus t.1 _ _ d r m p c (Or.inr h2)

/-- Every breaking change of a per-endpoint comparison carries the old
endpoint's repository name. -/
theorem diff_endpoints_common_repo (a b : Endpoint) (c : ContractChange)
    (h : c ∈ (diff_endpoints_common a b).1) : c.repo_name = a.repo_name := by
  simp only [diff_endpoints_common] at h
  rcases List.mem_append.1 h with h2 | h2
  · split_ifs at h2 with hreq
    · exact (diff_schema_locus _ _ "request" a.repo_name a.method a.path c (Or.inl h2)).1
    · simp at h2
  · split_ifs at h2 with hresp
    · exact (diff_schema_locus _ _ "response" a.repo_name a.method a.path c (Or.inl h2)).1
    · simp at h2

/-- Every breaking change of a diff whose old endpoint set belongs to
one repository carries that repository's name. -/
theorem diff_breaking_repo (old new : List Endpoint) (P : String)
    (hold : ∀ ep ∈ old, ep.repo_name = P) :
    ∀ bc ∈ (diff_endpoints old new).1, bc.repo_name = P := by
  intro bc hbc
  have hvals : ∀ kv ∈ endpointMap old, kv.2.repo_name = P :=
    endpointMap_val_prop (fun ep => ep.repo_name = P) old [] (by simp) hold
  simp only [diff_endpoints] at hbc
  rcases List.mem_append.1 hbc with h | h
  · obtain ⟨kv, hkv, hc⟩ := List.mem_map.1 h
    have := hvals kv (List.mem_filter.1 hkv).1
    rw [← hc]
    exact this
  · simp only [List.mem_flatten, List.mem_map, List.mem_filterMap,
      Option.map_eq_some'] at h
    obtain ⟨l, ⟨pr, ⟨kv, hkv, newEp, hget, hpr⟩, hl⟩, hc⟩ := h
    subst hpr
    subst hl
    have := diff_endpoints_common_repo kv.2 newEp bc hc
    rw [this]
    exact hvals kv hkv

/-- Every endpoint `get_endpoints` returns carries the queried
repository name. -/
theorem get_endpoints_repo (s : Store) (P : String) :
    ∀ ep ∈ (s.get_endpoints P).1, ep.repo_name = P := by
  intro ep hep
  have h2 : ep ∈ s.endpoints.filter (fun ep => ep.repo_name == P) :=
    (List.perm_insertionSort _ _).mem_iff.mp hep
  exact eq_of_beq (List.mem_filter.mp h2).2

/-- C3: a consumer registered against producer `P`'s endpoint is listed
among the affected consumers of every breaking change `assess_impact`
reports at that exact `(method, path)` — in particular a REMOVED change —
and the report's `consumer_count` is the cardinality of the distinct
union of the affected-consumer names over all its breaking changes. -/
theorem assess_impact_consumer_propagation (store : Store) (P : String)
    (C : Consumer) (scanned : List Endpoint)
    (hreg : C ∈ store.consumers) (hprod : C.producer_repo = P) :
    (∀ report store', assess_impact store P scanned = .ok (report, store') →
      ∀ bc ∈ report.breaking_changes, bc.change_kind = ChangeKind.removed →
        bc.endpoint_method = C.endpoint_method → bc.endpoint_path = C.endpoint_path →
        C.consumer_repo ∈ bc.affected_consumers) ∧
    (∀ report store', assess_impact store P scanned = .ok (report, store') →
      report.consumer_count =
        (report.breaking_changes.foldl
          (fun (acc : Finset String) (bc : BreakingChange) =>
            acc ∪ bc.affected_consumers.toFinset) ∅).card) := by
  constructor
  · intro report store' hok bc hbc hkind hm hp
    rcases hfind : store.repos.find? (fun r => r.name == P) with _ | r
    · simp [assess_impact, Store.get_repo, hfind] at hok
    · simp only [assess_impact, Store.get_repo, Store.get_endpoints, hfind,
        Except.ok.injEq, Prod.mk.injEq] at hok
      obtain ⟨hrep, -⟩ := hok
      subst hrep
      obtain ⟨bc0, hbc0, hatt⟩ := List.mem_map.1 hbc
      have hrepo0 : bc0.repo_name = P :=
        diff_breaking_repo ((store.get_endpoints P).1) scanned P
          (get_endpoints_repo store P) bc0 hbc0
      subst hatt
      have h2 : bc0.endpoint_method = C.endpoint_method := hm
      have h3 : bc0.endpoint_path = C.endpoint_path := hp
      show C.consumer_repo ∈ affected_for store bc0
      simp only [affected_for, Store.get_consumers_of]
      have hq : C ∈ store.consumers.filter (fun c =>
          c.producer_repo == bc0.repo_name && c.endpoint_method == bc0.endpoint_method &&
            c.endpoint_path == bc0.endpoint_path) := by
        refine List.mem_filter.mpr ⟨hreg, ?_⟩
        have h1 : C.producer_repo = bc0.repo_name := by rw [hprod, hrepo0]
        simp [h1, h2, h3]
      have hname : C.consumer_repo ∈ (store.consumers.filter (fun c =>
          c.producer_repo == bc0.repo_name && c.endpoint_method == bc0.endpoint_method &&
            c.endpoint_path == bc0.endpoint_path)).map (fun c => c.consumer_repo) :=
        List.mem_map_of_mem _ hq
      rw [if_neg]
      · exact hname
      · intro hemp
        rw [List.isEmpty_eq_true] at hemp
        exact List.ne_nil_of_mem hname hemp
  · intro report store' hok
    rcases hfind : store.repos.find? (fun r => r.name == P) with _ | r
    · simp [assess_impact, Store.get_repo, hfind] at hok
    · simp only [assess_impact, Store.get_repo, Store.get_endpoints, hfind,
        Except.ok.injEq, Prod.mk.injEq] at hok
      obtain ⟨hrep, -⟩ := hok
      subst hrep
      simp only [allConsumersOf, attachConsumers, List.foldl_map]

/-- Scenario for the C3 witness: producer `P` with endpoints
`GET /x` (response field `id:integer`) and `POST /y`; consumer `C` of
`(GET, /x)` and consumer `C2` of `(POST, /y)`. -/
def c3Store : Store := {
  repos := [{ name := "P", path := "/tmp/p", contract_type := some .openapi }],
  endpoints := [
    { repo_name := "P", method := "GET", path := "/x",
      response_schema := some [("id",
        { ftype := some "integer", frequired := some true, fdefault := none })] },
    { repo_name := "P", method := "POST", path := "/y" }],
  consumers := [
    { consumer_repo := "C", producer_repo := "P",
      endpoint_method := "GET", endpoint_path := "/x" },
    { consumer_repo := "C2", producer_repo := "P",
      endpoint_method := "POST", endpoint_path := "/y" }] }

/-- The re-scan of `P` with `GET /x` gone. -/
def c3New : List Endpoint := [{ repo_name := "P", method := "POST", path := "/y" }]

def c3Consumer : Consumer :=
  { consumer_repo := "C", producer_repo := "P",
    endpoint_method := "GET", endpoint_path := "/x" }

def c3Change : BreakingChange :=
  { repo_name := "P", endpoint_method := "GET", endpoint_path := "/x",
    change_kind := .removed, severity := .breaking,
    description := "Endpoint GET /x removed", affected_consumers := ["C"] }

def c3Report : ImpactReport :=
  { repo_name := "P", breaking_changes := [c3Change], non_breaking_changes := [],
    consumer_count := 1 }

def c3Version : ContractVersion :=
  { repo_name := "P",
    spec_hash := "5834f47c5f3262d2de4dab9b55cc2e8a035c1bb6249c7b0d78bc4285276eb464",
    endpoints := c3New }

def c3StoreAfter : Store :=
  { c3Store with endpoints := c3New, versions := [c3Version], reports := [c3Report] }

/-- Full concrete evaluation of `assess_impact` on the C3 scenario,
including the stored snapshot's SHA-256 spec hash. -/
theorem assess_impact_concrete_run :
    assess_impact c3Store "P" c3New = .ok (c3Report, c3StoreAfter) := rfl

/-! ## Claim C1 (malformed documents) and claim C2 (reference cycles) -/

/-- C1: what `_parse_openapi_file` actually does with a malformed source.
A parsed document that is not a mapping indeed contributes zero endpoints,
but a `yaml.safe_load` failure on a malformed document propagates out of
the extractor as the error it raised — the function installs no handler —
rather than contributing zero endpoints, refuting the never-throws half
of the claim. -/
theorem parse_openapi_malformed_behavior (fuel : Nat) (e repo : String) :
    parse_openapi_file fuel (.error e) repo = some (.error e) ∧
    (∀ doc : Yaml, (∀ es, doc ≠ .map es) →
      parse_openapi_file fuel (.ok doc) repo = some (.ok [])) := by
  constructor
  · rfl
  · intro doc hnm
    cases doc with
    | map es => exact absurd rfl (hnm es)
    | nullv => rfl
    | boolv b => rfl
    | numv s => rfl
    | str s => rfl
    | list l => rfl

theorem contains_eq_decide (l : List String) (a : String) :
    l.contains a = decide (a ∈ l) := by simp

/-- Visiting one more name never enlarges the unvisited-reference count. -/
theorem length_filter_append_le (l s : List String) (x : String) :
    ((l.filter (fun r => !((s ++ [x]).contains r))).length ≤
      (l.filter (fun r => !(s.contains r))).length) := by
  apply List.Sublist.length_le
  apply List.monotone_filter_right
  intro a ha
  simp only [contains_eq_decide, Bool.not_eq_true', decide_eq_false_iff_not,
    List.mem_append] at ha ⊢
  exact fun hmem => ha (Or.inl hmem)

/-- Visiting a listed, not yet visited name strictly shrinks the
unvisited-reference count. -/
theorem length_filter_append_lt (l : List String) (s : List String) (x : String)
    (hx : x ∈ l) (hns : s.contains x = false) :
    ((l.filter (fun r => !((s ++ [x]).contains r))).length <
      (l.filter (fun r => !(s.contains r))).length) := by
  have hnsx : x ∉ s := by simpa [contains_eq_decide] using hns
  induction l with
  | nil => simp at hx
  | cons a t ih =>
    by_cases hax : a = x
    · subst hax
      have hq : (!((s ++ [a]).contains a)) = false := by
        simp [contains_eq_decide, List.mem_append]
      have hp : (!(s.contains a)) = true := by simp [contains_eq_decide, hnsx]
      simp only [List.filter_cons, hq, hp, if_false, if_true]
      calc (t.filter (fun r => !((s ++ [a]).contains r))).length
          ≤ (t.filter (fun r => !(s.contains r))).length := length_filter_append_le t s a
        _ < ((t.filter (fun r => !(s.contains r))).length + 1) := Nat.lt_succ_self _
    · have hxt : x ∈ t := by
        rcases List.mem_cons.mp hx with h | h
        · exact absurd h.symm hax
        · exact h
      have heq : (!((s ++ [x]).contains a)) = (!(s.contains a)) := by
        simp [contains_eq_decide, List.mem_append, hax]
      simp only [List.filter_cons, heq]
      cases hpa : (!(s.contains a)) with
      | false => simpa using ih hxt
      | true => simpa using Nat.succ_lt_succ (ih hxt)

/-- One recursion step of `_resolve_ref` strictly decreases `refFuel`:
the next reference is a listed `$ref` value and the current one joins the
visited set. -/
theorem refFuel_decreases (comps : List (String × Yaml)) (ref r2 : String)
    (seen : List String)
    (hseen : seen.contains ref = false) (hr2 : r2 ∈ refVals comps) :
    refFuel comps r2 (seen ++ [ref]) < refFuel comps ref seen := by
  have hr2c : (refVals comps).contains r2 = true := List.elem_eq_true_of_mem hr2
  have hle := length_filter_append_le (refVals comps) seen ref
  have hc2 : (if (seen ++ [ref]).contains r2 then 0 else
      if (refVals comps).contains r2 then 1 else 2) ≤ 1 := by
    by_cases h : (seen ++ [ref]).contains r2 = true
    · rw [if_pos h]; omega
    · rw [if_neg h, if_pos hr2c]
  by_cases hrefL : ref ∈ refVals comps
  · have hlt := length_filter_append_lt (refVals comps) seen ref hrefL hseen
    have hc1 : (if seen.contains ref then 0 else
        if (refVals comps).contains ref then 1 else 2) = 1 := by
      rw [if_neg (by simpa [contains_eq_decide] using hseen),
        if_pos (List.elem_eq_true_of_mem hrefL)]
    unfold refFuel
    omega
  · have hrefc : (refVals comps).contains ref = false := by
      cases hc : (refVals comps).contains ref with
      | false => rfl
      | true => exact absurd (by simpa [contains_eq_decide] using hc) hrefL
    have hc1 : (if seen.contains ref then 0 else
        if (refVals comps).contains ref then 1 else 2) = 2 := by
      rw [if_neg (by simpa [contains_eq_decide] using hseen),
        if_neg (by simpa [contains_eq_decide] using hrefc)]
    unfold refFuel
    omega

theorem refFuel_pos (comps : List (String × Yaml)) (ref : String) (seen : List String) :
    1 ≤ refFuel comps ref seen := by
  unfold refFuel
  omega

/-- The reference `_resolve_ref` chains to is among the components map's
`$ref` values. -/
theorem refVals_mem_of_chain (comps : List (String × Yaml)) (name r2 : String)
    (es : List (String × Yaml))
    (hget : getKey? name comps = some (Yaml.map es))
    (hr : getKey? "$ref" es = some (Yaml.str r2)) :
    r2 ∈ refVals comps := by
  refine List.mem_filterMap.mpr ⟨(name, Yaml.map es), getKey?_eq_some_mem hget, ?_⟩
  simp [hr]

/-- `refFuel` is always enough fuel for the fueled `_resolve_ref`: the
recursion of the source terminates on every input. -/
theorem resolveRefF_adequate :
    ∀ fuel comps ref seen, refFuel comps ref seen ≤ fuel →
      (resolveRefF fuel comps ref seen).isSome = true := by
  intro fuel
  induction fuel with
  | zero =>
    intro comps ref seen h
    exact absurd h (by have := refFuel_pos comps ref seen; omega)
  | succ n ih =>
    intro comps ref seen h
    simp only [resolveRefF]
    by_cases hseen : seen.contains ref = true
    · rw [if_pos hseen]; rfl
    · rw [if_neg hseen]
      by_cases hpre : strStartsWith ref "#/components/schemas/" = true
      · rw [if_neg (by simp [hpre])]
        rcases hget : getKey? (ref.drop 21) comps with _ | resolved
        · simp only [hget]; rfl
        · simp only [hget]
          cases resolved with
          | map es =>
            rcases hr : getKey? "$ref" es with _ | v
            · simp only [hr]; rfl
            · cases v with
              | str r2 =>
                simp only [hr]
                apply ih
                have hseenF : seen.contains ref = false := by
                  cases hc : seen.contains ref with
                  | false => rfl
                  | true => exact absurd hc hseen
                have hmem : r2 ∈ refVals comps :=
                  refVals_mem_of_chain comps _ r2 es hget hr
                have := refFuel_decreases comps ref r2 seen hseenF hmem
                omega
              | nullv => simp only [hr]; rfl
              | boolv b => simp only [hr]; rfl
              | numv s => simp only [hr]; rfl
              | list l => simp only [hr]; rfl
              | map m => simp only [hr]; rfl
          | nullv => rfl
          | boolv b => rfl
          | numv s => rfl
          | str s => rfl
          | list l => rfl
      · rw [if_pos (by simp [hpre])]
        rfl

/-- A revisited reference resolves to the empty mapping: the `_seen`
cycle break of `_resolve_ref`. -/
theorem resolve_ref_revisited (comps : List (String × Yaml)) (ref : String)
    (seen : List String)
    (h : seen.contains ref = true) : resolve_ref comps ref seen = .map [] := by
  unfold resolve_ref
  obtain ⟨m, hm⟩ : ∃ m, refFuel comps ref seen = m + 1 := ⟨_, rfl⟩
  rw [hm]
  simp only [resolveRefF]
  rw [if_pos h]
  rfl

/-- A direct two-node `$ref` cycle: `A → B → A`. -/
def cycComps : List (String × Yaml) :=
  [("A", .map [("$ref", .str "#/components/schemas/B")]),
   ("B", .map [("$ref", .str "#/components/schemas/A")])]

def cycANode : Yaml := .map [("$ref", .str "#/components/schemas/A")]

/-- C2 (amended): `_resolve_ref` terminates on every input (its visited
set is a sufficient fuel bound), a revisited reference resolves to the
empty mapping, and a schema whose *direct* `$ref` graph is cyclic
resolves to the empty field table without raising.  The original claim's
"every cyclic reference graph" does not hold: see the composition-cycle
counterexample. -/
theorem ref_cycle_resolution_amended :
    (∀ fuel comps ref seen, refFuel comps ref seen ≤ fuel →
      (resolveRefF fuel comps ref seen).isSome = true) ∧
    (∀ comps ref seen, seen.contains ref = true →
      resolve_ref comps ref seen = .map []) ∧
    schema_to_fields 1 cycANode cycComps = some [] := by
  refine ⟨resolveRefF_adequate, resolve_ref_revisited, ?_⟩
  rfl

/-- A cycle routed through `allOf`: `CycAll`'s only branch is a `$ref`
back to `CycAll` itself. -/
def cycAllComps : List (String × Yaml) :=
  [("CycAll", .map [("allOf", .list [.map [("$ref", .str "#/components/schemas/CycAll")]])])]

def cycAllNode : Yaml := .map [("$ref", .str "#/components/schemas/CycAll")]

/-- The composition recursion of `_resolve_schema` exceeds every depth on
this input — what Python surfaces as an uncaught `RecursionError`. -/
def resolveSchemaDiverges (s : Yaml) (c : List (String × Yaml)) : Prop :=
  ∀ fuel, resolve_schema fuel s c = none

/-- Counterexample to C2 as stated: on the `allOf`-mediated reference
cycle, `_resolve_schema` recurses through the composition branch with a
fresh visited set each time, so resolution exceeds every recursion
depth instead of returning an empty field table. -/
theorem resolve_schema_composition_cycle_diverges :
    resolveSchemaDiverges cycAllNode cycAllComps := by
  intro fuel
  induction fuel with
  | zero => rfl
  | succ n ih =>
    have step : resolve_schema (n + 1) cycAllNode cycAllComps =
        ((((resolve_schema n cycAllNode cycAllComps).map (allOfAccum allOfInit)).bind
          (fun acc => List.foldlM (fun acc sub =>
            (resolve_schema n sub cycAllComps).map (allOfAccum acc)) acc [])).map
              allOfResult) := rfl
    rw [step, ih]
    rfl

/-- Witness for C3 at the concrete scenario: the hypotheses hold and the
removal of `(GET, /x)` reaches consumer `C`, with `consumer_count = 1`. -/
theorem assess_impact_consumer_propagation_witness :
    (c3Consumer ∈ c3Store.consumers ∧ c3Consumer.producer_repo = "P") ∧
    "C" ∈ c3Change.affected_consumers ∧ c3Report.consumer_count = 1 := by
  have h := assess_impact_consumer_propagation c3Store "P" c3Consumer c3New
    (by decide) rfl
  refine ⟨⟨by decide, rfl⟩, ?_, ?_⟩
  · exact h.1 c3Report c3StoreAfter assess_impact_concrete_run c3Change
      (by decide) rfl rfl rfl
  · have h2 := h.2 c3Report c3StoreAfter assess_impact_concrete_run
    rw [h2]
    decide

end Merovingian
